import Mathlib

/-
Verification of the `simple_query` query-language parser
(`src/simple_query/query_ast.py`).

The source converts a query string into a Python expression of identical
length (lower-casing it and replacing the whole-word relational keywords
eq/ne/gt/lt/ge/le by the same-length symbols ==/!=/ >/ </>=/<=), parses it
with Python's `ast.parse(..., mode="eval")`, and then walks the Python AST
into the domain AST of `Comparison` and `LogicalOperator` nodes, applying
the caller-supplied field-value converters.

This file is a shallow embedding of that pipeline:

* `queryToPythonExpression`, `makeAst`, `parseNode`, `parseComparison`,
  `parseBooleanExpression`, `parseValueNode`, `convertRelOp` and `build`
  are translated line by line from the Python source (`build` packages
  `QueryAst.__init__`: strip the query, then `_make_ast`).
* `pyParse` models the host facility `ast.parse(expr, filename,
  mode="eval")` on the expression subset reachable from the query
  language: names, string literals (escape sequences are not modelled;
  every theorem about string literals assumes backslash-free content),
  int and float literals, unary minus, `not`, `and`/`or` chains
  (n-ary `BoolOp`, as CPython produces), comparison chains (one `Compare`
  node with lists of operators and comparators), parentheses, the empty
  tuple `()`, and the chainable `is` operator.  Out-of-subset Python
  (e.g. `>>`, commas, multi-line expressions) is mapped to a parse-stage
  SyntaxError; no claim depends on those inputs.  Python exceptions are
  modelled by the `PyError` type; `ast.parse` positions are 1-based lines
  and 0-based node column offsets, exactly as in CPython.
* Machine floats only occur as literal values that are stored, never
  computed with; they are modelled as exact unnormalised decimal
  fractions (`PyFloat`).  `str.lower`, `\b` word boundaries and
  identifiers are modelled over ASCII.

The lexer and the recursive-descent parser inside `pyParse` use explicit
fuel so that everything stays structurally recursive and kernel-reducible;
fuel is sized generously from the input length and the distinguished
result `PyError.outOfFuel` never occurs for those sizes.
-/

namespace SimpleQuery

/-- A source position: 1-based line, 0-based column (CPython `lineno` /
`col_offset`). -/
structure Pos where
  line : Nat
  col : Nat
deriving DecidableEq

/-- The comparison operator tokens of the modelled Python subset
(`ast.Eq`, `ast.NotEq`, `ast.Gt`, `ast.Lt`, `ast.GtE`, `ast.LtE`,
`ast.Is`). -/
inductive CmpTok where
  | eq | ne | gt | lt | ge | le | isCmp
deriving DecidableEq

/-- A Python float literal, modelled as the exact decimal fraction
`num / den` it spells (unnormalised; only stored and negated, never
computed with). -/
structure PyFloat where
  num : Int
  den : Nat
deriving DecidableEq

/-- A raw literal value as produced by `_parse_value_node`: a Python
`str`, `int` or `float`. -/
inductive RawValue where
  | str (s : String)
  | intVal (n : Int)
  | floatVal (f : PyFloat)
deriving DecidableEq

/-- Python exceptions that can escape the build operation.  A
`SyntaxError` carries `(msg, (filename, lineno, offset, text))` as in
CPython; the other kinds carry only their message.  `outOfFuel` is the
distinguished result of exhausting the explicit fuel of the modelled
parser; it never occurs at the fuel sizes used. -/
inductive PyError where
  | syntaxError (msg : String) (filename : String) (lineno : Nat) (offset : Nat) (text : String)
  | nameError (msg : String)
  | valueError (msg : String)
  | typeError (msg : String)
  | assertionError
  | indexError
  | outOfFuel
deriving DecidableEq

mutual
/-- The Python AST nodes of the modelled subset (`ast.Name`, `ast.Str`,
`ast.Num` for ints and floats, `ast.UnaryOp` with `USub` or `Not`,
`ast.BoolOp`, `ast.Compare`, and the empty `ast.Tuple`).  `boolOp` is
n-ary and `compare` carries lists of operators and comparators, exactly
as CPython produces them. -/
inductive PyExpr where
  | name (id : String) (pos : Pos)
  | strLit (s : String) (pos : Pos)
  | numInt (n : Int) (pos : Pos)
  | numFloat (f : PyFloat) (pos : Pos)
  | usub (operand : PyExpr) (pos : Pos)
  | notOp (operand : PyExpr) (pos : Pos)
  | boolOp (isAnd : Bool) (values : PyExprList) (pos : Pos)
  | compare (left : PyExpr) (ops : List CmpTok) (comparators : PyExprList) (pos : Pos)
  | tupleNode (pos : Pos)
deriving DecidableEq

/-- A list of Python AST nodes (mutual with `PyExpr` so that structural
recursion and decidable equality work). -/
inductive PyExprList where
  | nil
  | cons (e : PyExpr) (es : PyExprList)
deriving DecidableEq
end

def PyExprList.length : PyExprList → Nat
  | .nil => 0
  | .cons _ es => es.length + 1

def PyExprList.ofList : List PyExpr → PyExprList
  | [] => .nil
  | e :: es => .cons e (PyExprList.ofList es)

/-- The position (`lineno`, `col_offset`) of a Python AST node. -/
def exprPos : PyExpr → Pos
  | .name _ p => p
  | .strLit _ p => p
  | .numInt _ p => p
  | .numFloat _ p => p
  | .usub _ p => p
  | .notOp _ p => p
  | .boolOp _ _ p => p
  | .compare _ _ _ p => p
  | .tupleNode p => p

/-- Tokens of the modelled Python expression lexer. -/
inductive Tok where
  | nameTok (s : String) (p : Pos)
  | intTok (n : Int) (p : Pos)
  | floatTok (v : PyFloat) (p : Pos)
  | strTok (s : String) (p : Pos)
  | cmpTok (op : CmpTok) (p : Pos)
  | andTok (p : Pos)
  | orTok (p : Pos)
  | notTok (p : Pos)
  | minusTok (p : Pos)
  | lparenTok (p : Pos)
  | rparenTok (p : Pos)
deriving DecidableEq

def tokPos : Tok → Pos
  | .nameTok _ p => p
  | .intTok _ p => p
  | .floatTok _ p => p
  | .strTok _ p => p
  | .cmpTok _ p => p
  | .andTok p => p
  | .orTok p => p
  | .notTok p => p
  | .minusTok p => p
  | .lparenTok p => p
  | .rparenTok p => p

/-! ### The operator normalizer (`_query_to_python_expression`)

`_query_to_python_expression` lower-cases the whole query and then
replaces every whole-word occurrence of a relational keyword by its
same-length symbolic form, via `re.split` on
`\b(eq|ne|gt|lt|ge|le)\b`.  `substAux` performs the identical
left-to-right scan: a two-character keyword is replaced when the
character before it (if any) and the character after it (if any) are
both non-word characters. -/

/-- ASCII lower-casing of one character (`str.lower` restricted to the
ASCII queries in scope). -/
def pyLowerChar (c : Char) : Char := c.toLower

/-- ASCII lower-casing of a string. -/
def pyLower (s : String) : String := ⟨s.data.map pyLowerChar⟩

/-- A regex word character (`\w` over ASCII): letter, digit or
underscore. -/
def isWordChar (c : Char) : Bool := c.isAlphanum || c = '_'

/-- `_rel_ops_mapping` on the two characters of a keyword: the
same-length symbolic replacement, if the pair is one of the six
relational keywords. -/
def relSym (a b : Char) : Option (Char × Char) :=
  if a = 'e' ∧ b = 'q' then some ('=', '=')
  else if a = 'n' ∧ b = 'e' then some ('!', '=')
  else if a = 'g' ∧ b = 't' then some (' ', '>')
  else if a = 'l' ∧ b = 't' then some (' ', '<')
  else if a = 'g' ∧ b = 'e' then some ('>', '=')
  else if a = 'l' ∧ b = 'e' then some ('<', '=')
  else none

/-- The keyword substitution scan.  `prevWord` records whether the
character immediately before the current position is a word character
(initially false: start of string is a word boundary). -/
def substAux : Bool → List Char → List Char
  | _, [] => []
  | _, [a] => [a]
  | prevWord, a :: b :: rest2 =>
    match relSym a b with
    | some (x, y) =>
      if prevWord = false ∧ ((rest2.head?.map isWordChar).getD false) = false then
        x :: y :: substAux (isWordChar b) rest2
      else
        a :: substAux (isWordChar a) (b :: rest2)
    | none => a :: substAux (isWordChar a) (b :: rest2)

/-- Whole-word relational-keyword substitution on a string. -/
def substRel (s : String) : String := ⟨substAux false s.data⟩

/-- `_query_to_python_expression`: lower-case the query and substitute
the relational keywords by their same-length symbolic forms. -/
def queryToPythonExpression (query : String) : String := substRel (pyLower query)

/-- An ASCII whitespace character as stripped by Python `str.strip`. -/
def isPySpace (c : Char) : Bool :=
  c = ' ' || c = '\t' || c = '\n' || c = '\r' || c = '\x0b' || c = '\x0c'

/-- Python `str.strip()` (ASCII whitespace). -/
def pyStrip (s : String) : String :=
  ⟨((s.data.dropWhile isPySpace).reverse.dropWhile isPySpace).reverse⟩

def splitlinesAux : List Char → List Char → List String
  | [], acc => [⟨acc.reverse⟩]
  | '\n' :: rest, acc =>
    ⟨acc.reverse⟩ :: (if rest.isEmpty then [] else splitlinesAux rest [])
  | c :: rest, acc => splitlinesAux rest (c :: acc)

/-- Python `str.splitlines()` (on `'\n'`; no final empty line, empty
string gives `[]`). -/
def splitlines (s : String) : List String :=
  if s.data.isEmpty then [] else splitlinesAux s.data []

/-! ### The lexer of the modelled `ast.parse` -/

/-- Split off the longest prefix whose characters satisfy `p`. -/
def takeChars (p : Char → Bool) : List Char → List Char × List Char
  | [] => ([], [])
  | c :: cs =>
    if p c then
      let t := takeChars p cs
      (c :: t.1, t.2)
    else ([], c :: cs)

def isIdentStart (c : Char) : Bool := c.isAlpha || c = '_'
def isIdentChar (c : Char) : Bool := c.isAlphanum || c = '_'

def digitsToNat (ds : List Char) : Nat :=
  ds.foldl (fun acc c => 10 * acc + (c.toNat - 48)) 0

/-- Scan a string literal's content up to the closing quote `q`.
Returns the content and the rest after the quote, or `none` when the
line or input ends first (CPython: "EOL while scanning string
literal"). -/
def scanStr (q : Char) : List Char → Option (List Char × List Char)
  | [] => none
  | c :: cs =>
    if c = q then some ([], cs)
    else if c = '\n' then none
    else
      match scanStr q cs with
      | none => none
      | some (content, rest) => some (c :: content, rest)

/-- A lexer-stage SyntaxError; the filename is attached by `pyParse` and
the text by `_make_ast`'s handler. -/
def lexErr (msg : String) (line col : Nat) : PyError :=
  .syntaxError msg "" line col ""

/-- The keyword table of the modelled subset: `and`, `or`, `not` and the
chainable comparison keyword `is`. -/
def keywordTok (s : String) (p : Pos) : Tok :=
  if s = "and" then .andTok p
  else if s = "or" then .orTok p
  else if s = "not" then .notTok p
  else if s = "is" then .cmpTok .isCmp p
  else .nameTok s p

/-- The lexer.  One unit of fuel is spent per token or skipped
character, so `length + 8` fuel always suffices. -/
def lexAux : Nat → List Char → Nat → Nat → Except PyError (List Tok)
  | 0, _, _, _ => .error .outOfFuel
  | _ + 1, [], _, _ => .ok []
  | fuel + 1, c :: cs, line, col =>
    if c = ' ' ∨ c = '\t' then lexAux fuel cs line (col + 1)
    else if c = '(' then
      (lexAux fuel cs line (col + 1)).map (Tok.lparenTok ⟨line, col⟩ :: ·)
    else if c = ')' then
      (lexAux fuel cs line (col + 1)).map (Tok.rparenTok ⟨line, col⟩ :: ·)
    else if c = '-' then
      (lexAux fuel cs line (col + 1)).map (Tok.minusTok ⟨line, col⟩ :: ·)
    else if c = '=' then
      match cs with
      | '=' :: cs2 =>
        (lexAux fuel cs2 line (col + 2)).map (Tok.cmpTok .eq ⟨line, col⟩ :: ·)
      | _ => .error (lexErr "invalid syntax" line (col + 1))
    else if c = '!' then
      match cs with
      | '=' :: cs2 =>
        (lexAux fuel cs2 line (col + 2)).map (Tok.cmpTok .ne ⟨line, col⟩ :: ·)
      | _ => .error (lexErr "invalid syntax" line (col + 1))
    else if c = '>' then
      match cs with
      | '=' :: cs2 =>
        (lexAux fuel cs2 line (col + 2)).map (Tok.cmpTok .ge ⟨line, col⟩ :: ·)
      | _ => (lexAux fuel cs line (col + 1)).map (Tok.cmpTok .gt ⟨line, col⟩ :: ·)
    else if c = '<' then
      match cs with
      | '=' :: cs2 =>
        (lexAux fuel cs2 line (col + 2)).map (Tok.cmpTok .le ⟨line, col⟩ :: ·)
      | _ => (lexAux fuel cs line (col + 1)).map (Tok.cmpTok .lt ⟨line, col⟩ :: ·)
    else if c = '\'' ∨ c = '"' then
      match scanStr c cs with
      | none => .error (lexErr "EOL while scanning string literal" line (col + 1))
      | some (content, rest) =>
        (lexAux fuel rest line (col + content.length + 2)).map
          (Tok.strTok ⟨content⟩ ⟨line, col⟩ :: ·)
    else if c.isDigit then
      match takeChars Char.isDigit (c :: cs) with
      | (ds, '.' :: afterDot) =>
        match takeChars Char.isDigit afterDot with
        | (fs, rest) =>
          (lexAux fuel rest line (col + ds.length + 1 + fs.length)).map
            (Tok.floatTok ⟨(digitsToNat (ds ++ fs) : Int), 10 ^ fs.length⟩ ⟨line, col⟩ :: ·)
      | (ds, rest) =>
        (lexAux fuel rest line (col + ds.length)).map
          (Tok.intTok (digitsToNat ds : Int) ⟨line, col⟩ :: ·)
    else if c = '.' ∧ ((cs.head?.map Char.isDigit).getD false) then
      match takeChars Char.isDigit cs with
      | (fs, rest) =>
        (lexAux fuel rest line (col + 1 + fs.length)).map
          (Tok.floatTok ⟨(digitsToNat fs : Int), 10 ^ fs.length⟩ ⟨line, col⟩ :: ·)
    else if isIdentStart c then
      match takeChars isIdentChar (c :: cs) with
      | (ws, rest) =>
        (lexAux fuel rest line (col + ws.length)).map
          (keywordTok ⟨ws⟩ ⟨line, col⟩ :: ·)
    else .error (lexErr "invalid syntax" line (col + 1))

/-! ### The recursive-descent parser of the modelled `ast.parse`

Grammar (the Python expression grammar restricted to the subset):
`or_expr := and_expr ("or" and_expr)*`,
`and_expr := unary ("and" unary)*`,
`unary := "not" unary | cmp_expr`,
`cmp_expr := operand (cmpop operand)*`,
`operand := "-" operand | NAME | NUMBER | STRING | "(" ")" | "(" or_expr ")"`.
Same-operator `and`/`or` chains collect into one n-ary `BoolOp` and
comparison chains into one `Compare` with operator and comparator
lists, exactly as CPython's parser produces them. -/

abbrev ParseRes := Except PyError (PyExpr × List Tok)

/-- Build a `BoolOp` from the first operand and the (possibly empty)
list of further operands; a single operand stays itself.  The node
position is the first operand's, as in CPython. -/
def mkBoolOp (isAnd : Bool) (first : PyExpr) (restOps : List PyExpr) : PyExpr :=
  match restOps with
  | [] => first
  | _ => .boolOp isAnd (PyExprList.ofList (first :: restOps)) (exprPos first)

/-- Build a `Compare` from the left operand and the collected operator
and comparator lists; no operators means the operand stands alone.  The
node position is the left operand's, as in CPython. -/
def mkCompare (left : PyExpr) (ops : List CmpTok) (comps : List PyExpr) : PyExpr :=
  match ops with
  | [] => left
  | _ => .compare left ops (PyExprList.ofList comps) (exprPos left)

def eofErr : PyError := lexErr "unexpected EOF while parsing" 1 0

mutual
def parseOr : Nat → List Tok → ParseRes
  | 0, _ => .error .outOfFuel
  | fuel + 1, ts =>
    match parseAnd fuel ts with
    | .error e => .error e
    | .ok (first, rest) => parseOrTail fuel first [] rest

def parseOrTail : Nat → PyExpr → List PyExpr → List Tok → ParseRes
  | 0, _, _, _ => .error .outOfFuel
  | fuel + 1, first, acc, ts =>
    match ts with
    | .orTok _ :: rest =>
      match parseAnd fuel rest with
      | .error e => .error e
      | .ok (e, rest2) => parseOrTail fuel first (acc ++ [e]) rest2
    | _ => .ok (mkBoolOp false first acc, ts)

def parseAnd : Nat → List Tok → ParseRes
  | 0, _ => .error .outOfFuel
  | fuel + 1, ts =>
    match parseUnary fuel ts with
    | .error e => .error e
    | .ok (first, rest) => parseAndTail fuel first [] rest

def parseAndTail : Nat → PyExpr → List PyExpr → List Tok → ParseRes
  | 0, _, _, _ => .error .outOfFuel
  | fuel + 1, first, acc, ts =>
    match ts with
    | .andTok _ :: rest =>
      match parseUnary fuel rest with
      | .error e => .error e
      | .ok (e, rest2) => parseAndTail fuel first (acc ++ [e]) rest2
    | _ => .ok (mkBoolOp true first acc, ts)

def parseUnary : Nat → List Tok → ParseRes
  | 0, _ => .error .outOfFuel
  | fuel + 1, ts =>
    match ts with
    | .notTok p :: rest =>
      match parseUnary fuel rest with
      | .error e => .error e
      | .ok (e, rest2) => .ok (.notOp e p, rest2)
    | _ => parseCmpExpr fuel ts

def parseCmpExpr : Nat → List Tok → ParseRes
  | 0, _ => .error .outOfFuel
  | fuel + 1, ts =>
    match parseOperand fuel ts with
    | .error e => .error e
    | .ok (left, rest) => parseCmpTail fuel left [] [] rest

def parseCmpTail : Nat → PyExpr → List CmpTok → List PyExpr → List Tok → ParseRes
  | 0, _, _, _, _ => .error .outOfFuel
  | fuel + 1, left, ops, comps, ts =>
    match ts with
    | .cmpTok o _ :: rest =>
      match parseOperand fuel rest with
      | .error e => .error e
      | .ok (c, rest2) => parseCmpTail fuel left (ops ++ [o]) (comps ++ [c]) rest2
    | _ => .ok (mkCompare left ops comps, ts)

def parseOperand : Nat → List Tok → ParseRes
  | 0, _ => .error .outOfFuel
  | fuel + 1, ts =>
    match ts with
    | .minusTok p :: rest =>
      match parseOperand fuel rest with
      | .error e => .error e
      | .ok (e, rest2) => .ok (.usub e p, rest2)
    | .intTok n p :: rest => .ok (.numInt n p, rest)
    | .floatTok v p :: rest => .ok (.numFloat v p, rest)
    | .strTok s p :: rest => .ok (.strLit s p, rest)
    | .nameTok s p :: rest => .ok (.name s p, rest)
    | .lparenTok p :: .rparenTok _ :: rest => .ok (.tupleNode p, rest)
    | .lparenTok _ :: rest =>
      match parseOr fuel rest with
      | .error e => .error e
      | .ok (e, .rparenTok _ :: rest2) => .ok (e, rest2)
      | .ok (_, t :: _) => .error (lexErr "invalid syntax" (tokPos t).line (tokPos t).col)
      | .ok (_, []) => .error eofErr
    | t :: _ => .error (lexErr "invalid syntax" (tokPos t).line (tokPos t).col)
    | [] => .error eofErr
end

/-- Parse a complete token list into one expression; leftover tokens are
a SyntaxError, as for CPython in `eval` mode. -/
def parseExprToks (ts : List Tok) : Except PyError PyExpr :=
  match parseOr (8 * ts.length + 64) ts with
  | .error e => .error e
  | .ok (e, []) => .ok e
  | .ok (_, t :: _) => .error (lexErr "invalid syntax" (tokPos t).line (tokPos t).col)

/-- Write `filename` into a SyntaxError, as `ast.parse(src, filename)`
reports its errors under the given filename. -/
def attachFilename (filename : String) : PyError → PyError
  | .syntaxError m _ l o t => .syntaxError m filename l o t
  | e => e

/-- The model of `ast.parse(src, filename, mode="eval")` on the
expression subset, returning the `Expression` body. -/
def pyParse (filename : String) (src : String) : Except PyError PyExpr :=
  match lexAux (src.length + 8) src.data 1 0 with
  | .error e => .error (attachFilename filename e)
  | .ok toks =>
    match parseExprToks toks with
    | .error e => .error (attachFilename filename e)
    | .ok e => .ok e

/-! ### The domain AST and the validator
(`Comparison`, `LogicalOperator`, `_parse_node`, `_parse_comparison`,
`_parse_boolean_expression`, `_parse_value_node`, `_convert_rel_op`) -/

/-- The relational operator stored in a `Comparison`
(`operator.eq` … `operator.le`). -/
inductive RelOp where
  | eq | ne | gt | lt | ge | le
deriving DecidableEq

/-- The boolean operator stored in a `LogicalOperator`
(`operator.and_`, `operator.or_`, `operator.not_`). -/
inductive LogOp where
  | land | lor | lnot
deriving DecidableEq

mutual
/-- The domain AST: the dataclasses `Comparison(op, name, value)` and
`LogicalOperator(op, operands)`. -/
inductive Ast where
  | comparison (op : RelOp) (name : String) (value : RawValue)
  | logicalOperator (op : LogOp) (operands : AstList)
deriving DecidableEq

/-- An operand sequence of a `LogicalOperator` (mutual with `Ast`). -/
inductive AstList where
  | nil
  | cons (a : Ast) (as_ : AstList)
deriving DecidableEq
end

def AstList.length : AstList → Nat
  | .nil => 0
  | .cons _ as_ => as_.length + 1

def AstList.ofList : List Ast → AstList
  | [] => .nil
  | a :: rest => .cons a (AstList.ofList rest)

/-- A field-value converter: a Python callable that either returns a
converted value or raises. -/
abbrev Converter := RawValue → Except PyError RawValue

/-- The `field_value_converters` mapping (a dict with string keys). -/
abbrev Registry := List (String × Converter)

/-- `dict.get`: the converter registered under exactly the key `k`, if
any. -/
def registryGet (fvc : Registry) (k : String) : Option Converter :=
  match fvc with
  | [] => none
  | p :: rest => if p.1 = k then some p.2 else registryGet rest k

/-- `QueryAst.PSEUDO_FILENAME`. -/
def PSEUDO_FILENAME : String := "<web request>"

/-- `_raise_syntax_error(message, node)`: a SyntaxError carrying the
pseudo-filename, the node's 1-based line, its 0-based column offset and
an empty text field (`_make_ast`'s handler fills in the source line). -/
def raiseSyntaxError (msg : String) (p : Pos) : PyError :=
  .syntaxError msg PSEUDO_FILENAME p.line p.col ""

/-- Python unary minus on a raw value; `none` models the `TypeError`
raised for a `str` operand. -/
def negRaw : RawValue → Option RawValue
  | .str _ => none
  | .intVal n => some (.intVal (-n))
  | .floatVal f => some (.floatVal ⟨-f.num, f.den⟩)

/-- `_parse_value_node`: `Str` and `Num` nodes evaluate to their
values; `USub` negates the recursively evaluated operand, turning the
`TypeError` of negating a string into "Attempt to negate non-number";
anything else is "Value is not a number or a string". -/
def parseValueNode : PyExpr → Except PyError RawValue
  | .strLit s _ => .ok (.str s)
  | .numInt n _ => .ok (.intVal n)
  | .numFloat f _ => .ok (.floatVal f)
  | .usub operand p =>
    match parseValueNode operand with
    | .error e => .error e
    | .ok v =>
      match negRaw v with
      | some v2 => .ok v2
      | none => .error (raiseSyntaxError "Attempt to negate non-number" p)
  | e => .error (raiseSyntaxError "Value is not a number or a string" (exprPos e))

/-- `_convert_rel_op`: map the Python comparison operator onto the
`operator` module's function; the chainable-but-unsupported `is` falls
through to "Unknown comparison operator 'is'" reported at the `Compare`
node's position. -/
def convertRelOp (op : CmpTok) (nodePos : Pos) : Except PyError RelOp :=
  match op with
  | .eq => .ok .eq
  | .ne => .ok .ne
  | .gt => .ok .gt
  | .lt => .ok .lt
  | .ge => .ok .ge
  | .le => .ok .le
  | .isCmp => .error (raiseSyntaxError "Unknown comparison operator \x27is\x27" nodePos)

/-- The `try/except (ValueError, TypeError)` wrapped around the
`_convert_rel_op` call in `_parse_comparison` (note: around the operator
mapping, not around the converter call; `_convert_rel_op` only ever
raises `SyntaxError`, so this handler is dead code). -/
def wrapConverterFailure (nameId : String) (r : Except PyError RelOp) : Except PyError RelOp :=
  match r with
  | .error (.valueError _) =>
    .error (.valueError ("Failed to apply converter to field \x27" ++ nameId ++ "\x27"))
  | .error (.typeError _) =>
    .error (.typeError ("Failed to apply converter to field \x27" ++ nameId ++ "\x27"))
  | r => r

/-- `_parse_comparison`.  In source order: unpack the `Compare` node's
children into exactly (name, op, value) — a chained comparison has more
children and raises the plain `ValueError` of tuple unpacking; assert
the left child is a `Name`; evaluate the value node; look the name up in
the converter registry as-is (`NameError` when absent); apply the
converter — whose own exception propagates unchanged; map the operator,
and build the `Comparison`. -/
def parseComparison (fvc : Registry) (node : PyExpr) : Except PyError Ast :=
  match node with
  | .compare left ops comps nodePos =>
    match ops, comps with
    | [astOp], .cons valueNode .nil =>
      match left with
      | .name nameId _ =>
        match parseValueNode valueNode with
        | .error e => .error e
        | .ok value =>
          match registryGet fvc nameId with
          | none => .error (.nameError ("No such field \x27" ++ nameId ++ "\x27"))
          | some valueConverter =>
            match valueConverter value with
            | .error e => .error e
            | .ok convertedValue =>
              match wrapConverterFailure nameId (convertRelOp astOp nodePos) with
              | .error e => .error e
              | .ok op => .ok (.comparison op nameId convertedValue)
      | _ => .error .assertionError
    | _, _ => .error (.valueError "too many values to unpack (expected 3)")
  | _ => .error .assertionError

mutual
/-- `_parse_node`: `Compare` nodes go to `_parse_comparison`, `BoolOp`
and `UnaryOp(Not)` nodes to `_parse_boolean_expression` (its body is
inlined here so the recursion stays structural; `parseBooleanExpression`
below is the same function), anything else is "Unsupported
expression". -/
def parseNode (fvc : Registry) : PyExpr → Except PyError Ast
  | node@(.compare _ _ _ _) => parseComparison fvc node
  | .boolOp isAnd values _ =>
    match parseNodeList fvc values with
    | .error e => .error e
    | .ok operands =>
      .ok (.logicalOperator (if isAnd then .land else .lor) operands)
  | .notOp operand _ =>
    match parseNode fvc operand with
    | .error e => .error e
    | .ok a => .ok (.logicalOperator .lnot (.cons a .nil))
  | node => .error (raiseSyntaxError "Unsupported expression" (exprPos node))

/-- `tuple(map(self._parse_node, child_nodes))`: convert the operand
nodes left to right, stopping at the first failure. -/
def parseNodeList (fvc : Registry) : PyExprList → Except PyError AstList
  | .nil => .ok .nil
  | .cons e es =>
    match parseNode fvc e with
    | .error err => .error err
    | .ok a =>
      match parseNodeList fvc es with
      | .error err => .error err
      | .ok as_ => .ok (.cons a as_)
end

/-- `_parse_boolean_expression`: the first child node names the boolean
operator (`And`/`Or`/`Not`), the remaining children are converted
recursively and collected into one `LogicalOperator`. -/
def parseBooleanExpression (fvc : Registry) : PyExpr → Except PyError Ast
  | .boolOp isAnd values _ =>
    match parseNodeList fvc values with
    | .error e => .error e
    | .ok operands =>
      .ok (.logicalOperator (if isAnd then .land else .lor) operands)
  | .notOp operand _ =>
    match parseNode fvc operand with
    | .error e => .error e
    | .ok a => .ok (.logicalOperator .lnot (.cons a .nil))
  | _ => .error .assertionError

/-- The `except SyntaxError` handler of `_make_ast`: re-raise a
`SyntaxError` with its last detail component replaced by
`query.splitlines()[lineno - 1]`, the offending line of the original
query (an out-of-range line is Python's `IndexError`); every other
outcome passes through unchanged. -/
def rewriteSyntaxErrorText (queryText : String) : Except PyError Ast → Except PyError Ast
  | .error (.syntaxError m fn l o _) =>
    match (splitlines queryText).get? (l - 1) with
    | some line => .error (.syntaxError m fn l o line)
    | none => .error .indexError
  | r => r

/-- `_make_ast`: normalize the query, parse it with the host parser
under `PSEUDO_FILENAME`, convert the root node, and route the outcome
through the `except SyntaxError` handler. -/
def makeAst (queryText : String) (fvc : Registry) : Except PyError Ast :=
  rewriteSyntaxErrorText queryText
    (match pyParse PSEUDO_FILENAME (queryToPythonExpression queryText) with
     | .error e => .error e
     | .ok rootNode => parseNode fvc rootNode)

/-- `QueryAst.__init__`: strip the query and build the AST.  This is the
public build operation: it yields either the domain AST or the first
error raised. -/
def build (query : String) (fvc : Registry) : Except PyError Ast :=
  makeAst (pyStrip query) fvc

/-! ### Example converters (the shapes the tests inject) -/

/-- Python `int()` on a string: optional surrounding spaces, an optional
sign, then at least one digit. -/
def pyIntOfString (s : String) : Except PyError Int :=
  let core := (s.data.dropWhile (· = ' ')).reverse.dropWhile (· = ' ') |>.reverse
  let signed : Int × List Char :=
    match core with
    | '-' :: ds => (-1, ds)
    | '+' :: ds => (1, ds)
    | ds => (1, ds)
  if signed.2 ≠ [] ∧ signed.2.all Char.isDigit then
    .ok (signed.1 * (digitsToNat signed.2 : Int))
  else
    .error (.valueError ("invalid literal for int() with base 10: \x27" ++ s ++ "\x27"))

/-- The `int` converter used by the tests: `int(value)` on the raw str,
int or float value (floats truncate toward zero). -/
def intConverter : Converter
  | .str s =>
    match pyIntOfString s with
    | .error e => .error e
    | .ok n => .ok (.intVal n)
  | .intVal n => .ok (.intVal n)
  | .floatVal f => .ok (.intVal (f.num.tdiv (f.den : Int)))

/-- A converter that accepts every raw value unchanged (the identity
function as converter). -/
def identityConverter : Converter := fun v => .ok v

/-! ### The structural invariant of C9 -/

mutual
/-- The spec's AST invariant: `And`/`Or` nodes have at least two
operands, `Not` nodes exactly one, and comparison field names contain no
(ASCII) uppercase letter. -/
def astWf : Ast → Bool
  | .comparison _ nm _ => nm.data.all (fun c => !c.isUpper)
  | .logicalOperator op operands =>
    (match op with
     | .lnot => operands.length = 1
     | _ => decide (2 ≤ operands.length)) && astListWf operands

def astListWf : AstList → Bool
  | .nil => true
  | .cons a as_ => astWf a && astListWf as_
end

instance exceptDecEq {ε α : Type} [DecidableEq ε] [DecidableEq α] :
    DecidableEq (Except ε α) := fun a b =>
  match a, b with
  | .ok x, .ok y => if h : x = y then .isTrue (by rw [h]) else .isFalse (by simp [h])
  | .error x, .error y => if h : x = y then .isTrue (by rw [h]) else .isFalse (by simp [h])
  | .ok _, .error _ => .isFalse (by simp)
  | .error _, .ok _ => .isFalse (by simp)

/-- A registry of the shape the tests inject: int-valued fields plus
passthrough fields. -/
def testRegistry : Registry :=
  [("count", intConverter), ("a", intConverter), ("b", intConverter),
   ("c", intConverter), ("x", identityConverter), ("date", identityConverter)]

/-- Whether an error is a `SyntaxError`. -/
def errIsSyntax : PyError → Bool
  | .syntaxError _ _ _ _ _ => true
  | _ => false

/-- A well-behaved converter registry: converters may raise, but not
`SyntaxError` (raising `SyntaxError` from a converter would be captured
by `_make_ast`'s `except SyntaxError` handler and be re-labelled as a
positioned syntax error). -/
def RegWf (fvc : Registry) : Prop :=
  ∀ p ∈ fvc, ∀ v e, p.2 v = .error e → errIsSyntax e = false

/-- The AST a build outcome carries, if it succeeded. -/
def resultAst : Except PyError Ast → Option Ast
  | .ok a => some a
  | .error _ => none

/-- A wellformed position: the line number is 1-based. -/
def posWf (p : Pos) : Prop := 1 ≤ p.line

/-- The token invariant: a 1-based line number, and name tokens contain
no uppercase letter (the lexer only ever sees normalized text). -/
def tokInv : Tok → Prop
  | .nameTok s p => posWf p ∧ s.data.all (fun c => !c.isUpper) = true
  | t => posWf (tokPos t)

/-- A syntax error's line number is 1-based (trivial for the other
kinds, which carry no position). -/
def errLineWf : PyError → Prop
  | .syntaxError _ _ l _ _ => 1 ≤ l
  | _ => True

mutual
/-- The invariant of Python AST nodes produced by `pyParse` on
normalized text: wellformed positions everywhere, `BoolOp` nodes with
at least two operands, and names without uppercase letters. -/
def exprInv : PyExpr → Prop
  | .name s p => posWf p ∧ s.data.all (fun c => !c.isUpper) = true
  | .strLit _ p => posWf p
  | .numInt _ p => posWf p
  | .numFloat _ p => posWf p
  | .usub e p => posWf p ∧ exprInv e
  | .notOp e p => posWf p ∧ exprInv e
  | .boolOp _ vs p => posWf p ∧ 2 ≤ vs.length ∧ exprListInv vs
  | .compare l _ cs p => posWf p ∧ exprInv l ∧ exprListInv cs
  | .tupleNode p => posWf p

def exprListInv : PyExprList → Prop
  | .nil => True
  | .cons e es => exprInv e ∧ exprListInv es
end


/-- The two components of a lexer outcome invariant: wellformed tokens
on success, a wellformed error line otherwise. -/
def lexResInv (r : Except PyError (List Tok)) : Prop :=
  (∀ toks, r = .ok toks → ∀ t ∈ toks, tokInv t) ∧ (∀ e, r = .error e → errLineWf e)

/-- The parser outcome invariant: a wellformed expression and leftover
tokens on success, a wellformed error line otherwise. -/
def parseResInv (r : ParseRes) : Prop :=
  (∀ e rest, r = .ok (e, rest) → exprInv e ∧ ∀ t ∈ rest, tokInv t) ∧
  (∀ err, r = .error err → errLineWf err)

/-- A syntax error produced inside the pipeline carries the
pseudo-filename and a 1-based line (trivially true of other kinds). -/
def synErrWf : PyError → Prop
  | .syntaxError _ fn l _ _ => fn = PSEUDO_FILENAME ∧ 1 ≤ l
  | _ => True

/-! ### Comparison-chain input families (for the flattening claims) -/

/-- The chainable comparison token corresponding to each relational
operator (used to range over comparison chains). -/
def cmpOfRel : RelOp → CmpTok
  | .eq => .eq
  | .ne => .ne
  | .gt => .gt
  | .lt => .lt
  | .ge => .ge
  | .le => .le

/-- A comparison `name op value` rendered as data for chain lemmas. -/
abbrev ChainItem := String × RelOp × Int

/-- The three tokens of such a comparison (at the fixed position used by
the chain lemmas). -/
def compToks (it : ChainItem) : List Tok :=
  [.nameTok it.1 ⟨1, 0⟩, .cmpTok (cmpOfRel it.2.1) ⟨1, 0⟩, .intTok it.2.2 ⟨1, 0⟩]

/-- The Python AST node such a comparison parses to. -/
def compNode (it : ChainItem) : PyExpr :=
  .compare (.name it.1 ⟨1, 0⟩) [cmpOfRel it.2.1] (.cons (.numInt it.2.2 ⟨1, 0⟩) .nil) ⟨1, 0⟩

/-- `and c₂ and c₃ …`: the tail of an `and`-joined comparison chain. -/
def andTailToks : List ChainItem → List Tok
  | [] => []
  | it :: rest => Tok.andTok ⟨1, 0⟩ :: compToks it ++ andTailToks rest

/-- `or c₂ or c₃ …`: the tail of an `or`-joined comparison chain. -/
def orTailToks : List ChainItem → List Tok
  | [] => []
  | it :: rest => Tok.orTok ⟨1, 0⟩ :: compToks it ++ orTailToks rest

/-- A token list that does not begin with a comparison operator (so a
comparison chain parse stops in front of it). -/
def noCmpHead : List Tok → Prop
  | .cmpTok _ _ :: _ => False
  | _ => True

/-- The domain comparison such an item validates to. -/
def compAst (it : ChainItem) : Ast := .comparison it.2.1 it.1 (.intVal it.2.2)

/-! ## Theorems

First the character-level facts about the ASCII lower-casing used by
the normalizer, then structural lemmas about the pipeline, then the
claims. -/

theorem char_eq_iff_toNat (c d : Char) : c = d ↔ c.toNat = d.toNat := by
  constructor
  · intro h; rw [h]
  · intro h; exact Char.ext (UInt32.toNat.inj h)

theorem toNat_ofNatAux (n : Nat) (h : n.isValidChar) : (Char.ofNatAux n h).toNat = n := rfl

/-- `pyLowerChar` adds 32 to an ASCII uppercase code point and fixes
everything else. -/
theorem toNat_pyLowerChar (c : Char) :
    (pyLowerChar c).toNat = if 65 ≤ c.toNat ∧ c.toNat ≤ 90 then c.toNat + 32 else c.toNat := by
  unfold pyLowerChar Char.toLower
  split
  · next h =>
    rw [if_pos (by omega)]
    rw [Char.ofNat, dif_pos (Or.inl (by simp only [Char.toNat] at h ⊢; omega))]
    exact toNat_ofNatAux _ _
  · next h => rw [if_neg (by omega)]

theorem isPySpace_iff (c : Char) : isPySpace c = true ↔
    (c.toNat = 32 ∨ c.toNat = 9 ∨ c.toNat = 10 ∨ c.toNat = 13 ∨ c.toNat = 11 ∨ c.toNat = 12) := by
  simp only [isPySpace, Bool.or_eq_true, decide_eq_true_eq, char_eq_iff_toNat,
    show (' ' : Char).toNat = 32 from rfl, show ('\t' : Char).toNat = 9 from rfl,
    show ('\n' : Char).toNat = 10 from rfl, show ('\r' : Char).toNat = 13 from rfl,
    show ('\x0b' : Char).toNat = 11 from rfl, show ('\x0c' : Char).toNat = 12 from rfl]
  omega

theorem isUpper_iff (c : Char) : c.isUpper = true ↔ (65 ≤ c.toNat ∧ c.toNat ≤ 90) := by
  simp only [Char.isUpper, Bool.and_eq_true, decide_eq_true_eq, ge_iff_le]
  exact Iff.rfl

theorem isLower_iff (c : Char) : c.isLower = true ↔ (97 ≤ c.toNat ∧ c.toNat ≤ 122) := by
  simp only [Char.isLower, Bool.and_eq_true, decide_eq_true_eq, ge_iff_le]
  exact Iff.rfl

theorem isDigit_iff (c : Char) : c.isDigit = true ↔ (48 ≤ c.toNat ∧ c.toNat ≤ 57) := by
  simp only [Char.isDigit, Bool.and_eq_true, decide_eq_true_eq, ge_iff_le]
  exact Iff.rfl

theorem boolFalse (b : Bool) (h : b = true → False) : b = false := by
  cases b
  · rfl
  · exact absurd rfl h

theorem isPySpace_pyLowerChar (c : Char) : isPySpace (pyLowerChar c) = isPySpace c := by
  have h := toNat_pyLowerChar c
  by_cases hu : 65 ≤ c.toNat ∧ c.toNat ≤ 90
  · rw [if_pos hu] at h
    have e1 : isPySpace (pyLowerChar c) = false :=
      boolFalse (isPySpace (pyLowerChar c)) (fun hx => by have := (isPySpace_iff _).mp hx; omega)
    have e2 : isPySpace c = false :=
      boolFalse (isPySpace c) (fun hx => by have := (isPySpace_iff c).mp hx; omega)
    rw [e1, e2]
  · rw [if_neg hu] at h
    rw [(char_eq_iff_toNat _ _).mpr h]

theorem isUpper_pyLowerChar (c : Char) : (pyLowerChar c).isUpper = false := by
  have h := toNat_pyLowerChar c
  by_cases hu : 65 ≤ c.toNat ∧ c.toNat ≤ 90
  · rw [if_pos hu] at h
    exact boolFalse _ (fun hx => by have := (isUpper_iff (pyLowerChar c)).mp hx; omega)
  · rw [if_neg hu] at h
    exact boolFalse _ (fun hx => by have := (isUpper_iff (pyLowerChar c)).mp hx; omega)

theorem isWordChar_iff (c : Char) : isWordChar c = true ↔
    ((65 ≤ c.toNat ∧ c.toNat ≤ 90) ∨ (97 ≤ c.toNat ∧ c.toNat ≤ 122) ∨
     (48 ≤ c.toNat ∧ c.toNat ≤ 57) ∨ c.toNat = 95) := by
  unfold isWordChar Char.isAlphanum Char.isAlpha
  simp only [Bool.or_eq_true, decide_eq_true_eq, char_eq_iff_toNat, isUpper_iff, isLower_iff,
    isDigit_iff, show ('_' : Char).toNat = 95 from rfl]
  omega

theorem isWordChar_pyLowerChar (c : Char) : isWordChar (pyLowerChar c) = isWordChar c := by
  have h := toNat_pyLowerChar c
  by_cases hu : 65 ≤ c.toNat ∧ c.toNat ≤ 90
  · rw [if_pos hu] at h
    have l : isWordChar (pyLowerChar c) = true := (isWordChar_iff _).mpr (by omega)
    have r : isWordChar c = true := (isWordChar_iff c).mpr (by omega)
    rw [l, r]
  · rw [if_neg hu] at h
    rw [(char_eq_iff_toNat _ _).mpr h]


/-! ### Normalizer facts -/

theorem relSym_chars (a b x y : Char) (h : relSym a b = some (x, y)) :
    (x = '=' ∨ x = '!' ∨ x = '>' ∨ x = '<' ∨ x = ' ') ∧
    (y = '=' ∨ y = '>' ∨ y = '<') := by
  unfold relSym at h
  split_ifs at h <;> rcases h with ⟨rfl, rfl⟩ <;> exact ⟨by tauto, by tauto⟩

theorem substAux_length (prev : Bool) (cs : List Char) :
    (substAux prev cs).length = cs.length := by
  induction prev, cs using substAux.induct with
  | case1 x => rfl
  | case2 x a => rfl
  | case3 prevWord a b rest2 x y hr hc ih =>
    simp only [substAux, hr, if_pos hc, List.length_cons, ih]
  | case4 prevWord a b rest2 x y hr hc ih =>
    simp only [substAux, hr, if_neg hc, List.length_cons, ih]
  | case5 prevWord a b rest2 hr ih =>
    simp only [substAux, hr, List.length_cons, ih]

theorem substAux_chars (prev : Bool) (cs : List Char) (c : Char)
    (hc : c ∈ substAux prev cs) :
    c ∈ cs ∨ (c = '=' ∨ c = '!' ∨ c = '>' ∨ c = '<' ∨ c = ' ') := by
  induction prev, cs using substAux.induct with
  | case1 x => simp [substAux] at hc
  | case2 x a => simp [substAux] at hc; simp [hc]
  | case3 prevWord a b rest2 x y hr hcond ih =>
    simp only [substAux, hr, if_pos hcond, List.mem_cons] at hc
    rcases hc with rfl | rfl | hc
    · exact Or.inr ((relSym_chars a b c y hr).1)
    · exact Or.inr ((relSym_chars a b x c hr).2.imp_right (by tauto))
    · rcases ih hc with h | h
      · exact Or.inl (by simp [h])
      · exact Or.inr h
  | case4 prevWord a b rest2 x y hr hcond ih =>
    simp only [substAux, hr, if_neg hcond, List.mem_cons] at hc
    rcases hc with rfl | hc
    · exact Or.inl (by simp)
    · rcases ih hc with h | h
      · exact Or.inl (by simp [h])
      · exact Or.inr h
  | case5 prevWord a b rest2 hr ih =>
    simp only [substAux, hr, List.mem_cons] at hc
    rcases hc with rfl | hc
    · exact Or.inl (by simp)
    · rcases ih hc with h | h
      · exact Or.inl (by simp [h])
      · exact Or.inr h

theorem substAux_all (P : Char → Bool)
    (hsym : P '=' = true ∧ P '!' = true ∧ P '>' = true ∧ P '<' = true ∧ P ' ' = true)
    (prev : Bool) (cs : List Char) (h : cs.all P = true) :
    (substAux prev cs).all P = true := by
  rw [List.all_eq_true] at h ⊢
  intro c hc
  rcases substAux_chars prev cs c hc with hm | hs
  · exact h c hm
  · rcases hs with rfl | rfl | rfl | rfl | rfl <;> tauto

theorem data_pyLower (s : String) : (pyLower s).data = s.data.map pyLowerChar := rfl

theorem data_substRel (s : String) : (substRel s).data = substAux false s.data := rfl

theorem length_queryToPythonExpression (s : String) :
    (queryToPythonExpression s).length = s.length := by
  show (substAux false (s.data.map pyLowerChar)).length = s.data.length
  rw [substAux_length, List.length_map]

theorem noUpper_queryToPythonExpression (s : String) :
    (queryToPythonExpression s).data.all (fun c => !c.isUpper) = true := by
  show (substAux false (s.data.map pyLowerChar)).all _ = true
  apply substAux_all _ (by refine ⟨?_, ?_, ?_, ?_, ?_⟩ <;> decide)
  rw [List.all_eq_true]
  intro c hc
  rw [List.mem_map] at hc
  obtain ⟨d, _, rfl⟩ := hc
  simp [isUpper_pyLowerChar]

/-! ### Lexer invariants -/

theorem takeChars_append (p : Char → Bool) (cs : List Char) :
    (takeChars p cs).1 ++ (takeChars p cs).2 = cs := by
  induction cs with
  | nil => rfl
  | cons c cs ih =>
    unfold takeChars
    by_cases h : p c = true
    · simp only [h, if_pos]
      simpa using ih
    · simp only [h]
      simp

theorem scanStr_append (q : Char) (cs content rest : List Char)
    (h : scanStr q cs = some (content, rest)) :
    content ++ q :: rest = cs := by
  induction cs generalizing content with
  | nil => simp [scanStr] at h
  | cons c cs ih =>
    unfold scanStr at h
    by_cases hq : c = q
    · simp only [hq, if_pos rfl] at h
      obtain ⟨rfl, rfl⟩ := Prod.mk.injEq .. ▸ (Option.some.injEq .. ▸ h)
      simp [hq]
    · rw [if_neg hq] at h
      by_cases hn : c = '\n'
      · rw [if_pos hn] at h; exact absurd h (by simp)
      · rw [if_neg hn] at h
        cases hs : scanStr q cs with
        | none => rw [hs] at h; exact absurd h (by simp)
        | some pr =>
          rw [hs] at h
          obtain ⟨content2, rest2⟩ := pr
          simp only [Option.some.injEq, Prod.mk.injEq] at h
          obtain ⟨rfl, rfl⟩ := h
          simpa using ih content2 hs

theorem lexResInv_error (e : PyError) (he : errLineWf e) : lexResInv (.error e) := by
  constructor
  · intro toks h; exact absurd h (by simp)
  · intro e2 h; injection h with h; subst h; exact he

theorem map_cons_inv (r : Except PyError (List Tok)) (t : Tok)
    (hr : lexResInv r) (ht : tokInv t) : lexResInv (r.map (t :: ·)) := by
  constructor
  · intro toks htoks u hu
    cases r with
    | error e => exact absurd htoks (by simp [Except.map])
    | ok toks0 =>
      simp only [Except.map, Except.ok.injEq] at htoks
      subst htoks
      rcases List.mem_cons.mp hu with rfl | hu2
      · exact ht
      · exact hr.1 toks0 rfl u hu2
  · intro e he
    cases r with
    | error e0 =>
      simp only [Except.map, Except.error.injEq] at he
      subst he
      exact hr.2 e0 rfl
    | ok toks0 => exact absurd he (by simp [Except.map])

theorem tokInv_keywordTok (s : String) (p : Pos) (hp : posWf p)
    (hs : s.data.all (fun c => !c.isUpper) = true) : tokInv (keywordTok s p) := by
  unfold keywordTok
  split_ifs <;> simp [tokInv, tokPos, hp, hs]

theorem all_of_append_right {P : Char → Bool} {l1 l2 cs : List Char}
    (heq : l1 ++ l2 = cs) (h : cs.all P = true) : l2.all P = true := by
  subst heq
  rw [List.all_append, Bool.and_eq_true] at h
  exact h.2

theorem all_of_append_left {P : Char → Bool} {l1 l2 cs : List Char}
    (heq : l1 ++ l2 = cs) (h : cs.all P = true) : l1.all P = true := by
  subst heq
  rw [List.all_append, Bool.and_eq_true] at h
  exact h.1

/-- Every token the lexer produces from uppercase-free input satisfies
the token invariant, and every error it raises carries a 1-based
line. -/
theorem lexAux_inv (fuel : Nat) : ∀ (cs : List Char) (line col : Nat), 1 ≤ line →
    cs.all (fun c => !c.isUpper) = true → lexResInv (lexAux fuel cs line col) := by
  induction fuel with
  | zero =>
    intro cs line col _ _
    exact lexResInv_error _ trivial
  | succ n ih =>
    intro cs line col hline hcs
    match cs with
    | [] =>
      constructor
      · intro toks h t ht
        rw [show lexAux (n+1) [] line col = .ok [] from rfl] at h
        injection h with h
        subst h
        cases ht
      · intro e h
        exact absurd h (by simp [lexAux])
    | c :: cs2 =>
      rw [List.all_cons, Bool.and_eq_true] at hcs
      obtain ⟨hcup, hcs2⟩ := hcs
      have hallc : ((c :: cs2).all fun d => !d.isUpper) = true := by
        rw [List.all_cons, Bool.and_eq_true]
        exact ⟨hcup, hcs2⟩
      rw [lexAux.eq_def]
      simp only []
      by_cases h1 : c = ' ' ∨ c = '\t'
      · rw [if_pos h1]; exact ih cs2 line (col+1) hline hcs2
      rw [if_neg h1]
      by_cases h2 : c = '('
      · rw [if_pos h2]
        exact map_cons_inv _ (Tok.lparenTok ⟨line, col⟩) (ih cs2 line (col+1) hline hcs2) hline
      rw [if_neg h2]
      by_cases h3 : c = ')'
      · rw [if_pos h3]
        exact map_cons_inv _ (Tok.rparenTok ⟨line, col⟩) (ih cs2 line (col+1) hline hcs2) hline
      rw [if_neg h3]
      by_cases h4 : c = '-'
      · rw [if_pos h4]
        exact map_cons_inv _ (Tok.minusTok ⟨line, col⟩) (ih cs2 line (col+1) hline hcs2) hline
      rw [if_neg h4]
      by_cases h5 : c = '='
      · rw [if_pos h5]
        split
        · next u tl =>
          rw [List.all_cons, Bool.and_eq_true] at hcs2
          exact map_cons_inv _ (Tok.cmpTok .eq ⟨line, col⟩) (ih tl line (col+2) hline hcs2.2) hline
        · exact lexResInv_error _ hline
      rw [if_neg h5]
      by_cases h6 : c = '!'
      · rw [if_pos h6]
        split
        · next u tl =>
          rw [List.all_cons, Bool.and_eq_true] at hcs2
          exact map_cons_inv _ (Tok.cmpTok .ne ⟨line, col⟩) (ih tl line (col+2) hline hcs2.2) hline
        · exact lexResInv_error _ hline
      rw [if_neg h6]
      by_cases h7 : c = '>'
      · rw [if_pos h7]
        split
        · next u tl =>
          rw [List.all_cons, Bool.and_eq_true] at hcs2
          exact map_cons_inv _ (Tok.cmpTok .ge ⟨line, col⟩) (ih tl line (col+2) hline hcs2.2) hline
        · exact map_cons_inv _ (Tok.cmpTok .gt ⟨line, col⟩) (ih cs2 line (col+1) hline hcs2) hline
      rw [if_neg h7]
      by_cases h8 : c = '<'
      · rw [if_pos h8]
        split
        · next u tl =>
          rw [List.all_cons, Bool.and_eq_true] at hcs2
          exact map_cons_inv _ (Tok.cmpTok .le ⟨line, col⟩) (ih tl line (col+2) hline hcs2.2) hline
        · exact map_cons_inv _ (Tok.cmpTok .lt ⟨line, col⟩) (ih cs2 line (col+1) hline hcs2) hline
      rw [if_neg h8]
      by_cases h9 : c = '\'' ∨ c = '"'
      · rw [if_pos h9]
        split
        · exact lexResInv_error _ hline
        · next content rest heq =>
          have happ : (content ++ [c]) ++ rest = cs2 := by
            simpa using scanStr_append c cs2 content rest heq
          exact map_cons_inv _ (Tok.strTok ⟨content⟩ ⟨line, col⟩)
            (ih rest line (col + content.length + 2) hline (all_of_append_right happ hcs2)) hline
      rw [if_neg h9]
      by_cases h10 : c.isDigit = true
      · rw [if_pos h10]
        split
        · next ds afterDot heq =>
          have happ : ds ++ '.' :: afterDot = c :: cs2 := by
            have h := takeChars_append Char.isDigit (c :: cs2)
            rw [heq] at h
            exact h
          have hAfter : (('.' :: afterDot).all fun d => !d.isUpper) = true :=
            all_of_append_right happ hallc
          rw [List.all_cons, Bool.and_eq_true] at hAfter
          exact map_cons_inv _ (Tok.floatTok _ ⟨line, col⟩)
            (ih _ line _ hline
              (all_of_append_right (takeChars_append Char.isDigit afterDot) hAfter.2)) hline
        · next x ds rest hnp heq =>
          have happ : ds ++ rest = c :: cs2 := by
            have h := takeChars_append Char.isDigit (c :: cs2)
            rw [heq] at h
            exact h
          exact map_cons_inv _ (Tok.intTok _ ⟨line, col⟩)
            (ih rest line _ hline (all_of_append_right happ hallc)) hline
      rw [if_neg h10]
      by_cases h11 : c = '.' ∧ ((cs2.head?.map Char.isDigit).getD false) = true
      · rw [if_pos h11]
        exact map_cons_inv _ (Tok.floatTok _ ⟨line, col⟩)
          (ih _ line _ hline
            (all_of_append_right (takeChars_append Char.isDigit cs2) hcs2)) hline
      rw [if_neg h11]
      by_cases h12 : isIdentStart c = true
      · rw [if_pos h12]
        exact map_cons_inv _ (keywordTok ⟨(takeChars isIdentChar (c :: cs2)).1⟩ ⟨line, col⟩)
          (ih _ line _ hline
            (all_of_append_right (takeChars_append isIdentChar (c :: cs2)) hallc))
          (tokInv_keywordTok _ ⟨line, col⟩ hline
            (all_of_append_left (takeChars_append isIdentChar (c :: cs2)) hallc))
      rw [if_neg h12]
      exact lexResInv_error _ hline

/-! ### Parser invariants -/

theorem exprInv_pos (e : PyExpr) (h : exprInv e) : posWf (exprPos e) := by
  cases e <;> first | exact h | exact h.1

theorem exprListInv_ofList (l : List PyExpr) (h : ∀ e ∈ l, exprInv e) :
    exprListInv (PyExprList.ofList l) := by
  induction l with
  | nil => trivial
  | cons e es ih =>
    exact ⟨h e (by simp), ih (fun x hx => h x (by simp [hx]))⟩

theorem length_ofList (l : List PyExpr) : (PyExprList.ofList l).length = l.length := by
  induction l with
  | nil => rfl
  | cons e es ih => simp [PyExprList.ofList, PyExprList.length, ih]

theorem exprInv_mkBoolOp (isAnd : Bool) (first : PyExpr) (restOps : List PyExpr)
    (h1 : exprInv first) (h2 : ∀ e ∈ restOps, exprInv e) :
    exprInv (mkBoolOp isAnd first restOps) := by
  cases restOps with
  | nil => exact h1
  | cons r rs =>
    refine ⟨exprInv_pos first h1, ?_, ?_⟩
    · rw [length_ofList]
      simp
    · exact exprListInv_ofList _ (by
        intro e he
        rcases List.mem_cons.mp he with rfl | he2
        · exact h1
        · exact h2 e he2)

theorem exprInv_mkCompare (left : PyExpr) (ops : List CmpTok) (comps : List PyExpr)
    (h1 : exprInv left) (h2 : ∀ e ∈ comps, exprInv e) :
    exprInv (mkCompare left ops comps) := by
  cases ops with
  | nil => exact h1
  | cons o os => exact ⟨exprInv_pos left h1, h1, exprListInv_ofList _ h2⟩

theorem parseResInv_ok (e : PyExpr) (rest : List Tok) (he : exprInv e)
    (hrest : ∀ t ∈ rest, tokInv t) : parseResInv (.ok (e, rest)) := by
  constructor
  · intro e2 rest2 h
    injection h with h
    injection h with ha hb
    subst ha
    subst hb
    exact ⟨he, hrest⟩
  · intro err h
    exact absurd h (by simp)

theorem parseResInv_error (err : PyError) (h : errLineWf err) : parseResInv (.error err) := by
  constructor
  · intro e rest hh
    exact absurd hh (by simp)
  · intro err2 hh
    injection hh with hh
    subst hh
    exact h

theorem tokInv_pos (t : Tok) (h : tokInv t) : posWf (tokPos t) := by
  cases t <;> first | exact h | exact h.1

theorem tail_tokInv {t : Tok} {rest : List Tok} (hts : ∀ u ∈ t :: rest, tokInv u) :
    ∀ u ∈ rest, tokInv u := fun u hu => hts u (List.mem_cons_of_mem _ hu)

theorem head_tokInv {t : Tok} {rest : List Tok} (hts : ∀ u ∈ t :: rest, tokInv u) :
    tokInv t := hts t (List.mem_cons_self _ _)

theorem parser_inv (fuel : Nat) :
    (∀ ts, (∀ t ∈ ts, tokInv t) → parseResInv (parseOr fuel ts))
    ∧ (∀ first acc ts, exprInv first → (∀ e ∈ acc, exprInv e) → (∀ t ∈ ts, tokInv t) →
        parseResInv (parseOrTail fuel first acc ts))
    ∧ (∀ ts, (∀ t ∈ ts, tokInv t) → parseResInv (parseAnd fuel ts))
    ∧ (∀ first acc ts, exprInv first → (∀ e ∈ acc, exprInv e) → (∀ t ∈ ts, tokInv t) →
        parseResInv (parseAndTail fuel first acc ts))
    ∧ (∀ ts, (∀ t ∈ ts, tokInv t) → parseResInv (parseUnary fuel ts))
    ∧ (∀ ts, (∀ t ∈ ts, tokInv t) → parseResInv (parseCmpExpr fuel ts))
    ∧ (∀ left ops comps ts, exprInv left → (∀ e ∈ comps, exprInv e) → (∀ t ∈ ts, tokInv t) →
        parseResInv (parseCmpTail fuel left ops comps ts))
    ∧ (∀ ts, (∀ t ∈ ts, tokInv t) → parseResInv (parseOperand fuel ts)) := by
  induction fuel with
  | zero =>
    refine ⟨fun ts _ => parseResInv_error .outOfFuel trivial,
      fun _ _ ts _ _ _ => parseResInv_error .outOfFuel trivial,
      fun ts _ => parseResInv_error .outOfFuel trivial,
      fun _ _ ts _ _ _ => parseResInv_error .outOfFuel trivial,
      fun ts _ => parseResInv_error .outOfFuel trivial,
      fun ts _ => parseResInv_error .outOfFuel trivial,
      fun _ _ _ ts _ _ _ => parseResInv_error .outOfFuel trivial,
      fun ts _ => parseResInv_error .outOfFuel trivial⟩
  | succ n ih =>
    obtain ⟨ihOr, ihOrT, ihAnd, ihAndT, ihU, ihC, ihCT, ihOp⟩ := ih
    have hOp : ∀ ts, (∀ t ∈ ts, tokInv t) → parseResInv (parseOperand (n+1) ts) := by
      intro ts hts
      rw [parseOperand.eq_def]
      try simp only []
      split
      · -- minus
        next p rest =>
        try simp only []
        cases h : parseOperand n rest with
        | error e => exact parseResInv_error e ((ihOp rest (tail_tokInv hts)).2 e h)
        | ok pr =>
          obtain ⟨e, rest2⟩ := pr
          have hh := (ihOp rest (tail_tokInv hts)).1 e rest2 h
          exact parseResInv_ok (.usub e p) rest2 ⟨tokInv_pos _ (head_tokInv hts), hh.1⟩ hh.2
      · next v p rest =>
        exact parseResInv_ok (.numInt v p) rest (head_tokInv hts) (tail_tokInv hts)
      · next v p rest =>
        exact parseResInv_ok (.numFloat v p) rest (head_tokInv hts) (tail_tokInv hts)
      · next s p rest =>
        exact parseResInv_ok (.strLit s p) rest (head_tokInv hts) (tail_tokInv hts)
      · next s p rest =>
        exact parseResInv_ok (.name s p) rest (head_tokInv hts) (tail_tokInv hts)
      · next p p2 rest =>
        exact parseResInv_ok (.tupleNode p) rest (tokInv_pos _ (head_tokInv hts))
          (tail_tokInv (tail_tokInv hts))
      · -- lparen, general
        next p rest hnp =>
        try simp only []
        cases h : parseOr n rest with
        | error e => exact parseResInv_error e ((ihOr rest (tail_tokInv hts)).2 e h)
        | ok pr =>
          obtain ⟨e, rest2⟩ := pr
          have hh := (ihOr rest (tail_tokInv hts)).1 e rest2 h
          cases rest2 with
          | nil => exact parseResInv_error eofErr (Nat.le_refl 1)
          | cons t3 rest3 =>
            cases t3 <;>
              first
                | exact parseResInv_ok e rest3 hh.1 (tail_tokInv hh.2)
                | exact parseResInv_error _ (tokInv_pos _ (head_tokInv hh.2))
      · next t tail hn1 hn2 hn3 hn4 hn5 hn6 hn7 =>
        exact parseResInv_error _ (tokInv_pos t (head_tokInv hts))
      · exact parseResInv_error eofErr (Nat.le_refl 1)
    have hCT : ∀ left ops comps ts, exprInv left → (∀ e ∈ comps, exprInv e) →
        (∀ t ∈ ts, tokInv t) → parseResInv (parseCmpTail (n+1) left ops comps ts) := by
      intro left ops comps ts hleft hcomps hts
      rw [parseCmpTail.eq_def]
      try simp only []
      split
      · next o p rest =>
        try simp only []
        cases h : parseOperand n rest with
        | error e => exact parseResInv_error e ((ihOp rest (tail_tokInv hts)).2 e h)
        | ok pr =>
          obtain ⟨c, rest2⟩ := pr
          have hh := (ihOp rest (tail_tokInv hts)).1 c rest2 h
          refine ihCT left (ops ++ [o]) (comps ++ [c]) rest2 hleft ?_ hh.2
          intro e he
          rcases List.mem_append.mp he with he2 | he2
          · exact hcomps e he2
          · rw [List.mem_singleton.mp he2]
            exact hh.1
      · next hne =>
        exact parseResInv_ok _ _ (exprInv_mkCompare left ops comps hleft hcomps) hts
    have hC : ∀ ts, (∀ t ∈ ts, tokInv t) → parseResInv (parseCmpExpr (n+1) ts) := by
      intro ts hts
      rw [parseCmpExpr.eq_def]
      try simp only []
      cases h : parseOperand n ts with
      | error e => exact parseResInv_error e ((ihOp ts hts).2 e h)
      | ok pr =>
        obtain ⟨left, rest⟩ := pr
        have hh := (ihOp ts hts).1 left rest h
        exact ihCT left [] [] rest hh.1 (by intro e he; cases he) hh.2
    have hU : ∀ ts, (∀ t ∈ ts, tokInv t) → parseResInv (parseUnary (n+1) ts) := by
      intro ts hts
      rw [parseUnary.eq_def]
      try simp only []
      split
      · next p rest =>
        try simp only []
        cases h : parseUnary n rest with
        | error e => exact parseResInv_error e ((ihU rest (tail_tokInv hts)).2 e h)
        | ok pr =>
          obtain ⟨e, rest2⟩ := pr
          have hh := (ihU rest (tail_tokInv hts)).1 e rest2 h
          exact parseResInv_ok (.notOp e p) rest2 ⟨tokInv_pos _ (head_tokInv hts), hh.1⟩ hh.2
      · next hne => exact ihC ts hts
    have hAndT : ∀ first acc ts, exprInv first → (∀ e ∈ acc, exprInv e) →
        (∀ t ∈ ts, tokInv t) → parseResInv (parseAndTail (n+1) first acc ts) := by
      intro first acc ts hfirst hacc hts
      rw [parseAndTail.eq_def]
      try simp only []
      split
      · next p rest =>
        try simp only []
        cases h : parseUnary n rest with
        | error e => exact parseResInv_error e ((ihU rest (tail_tokInv hts)).2 e h)
        | ok pr =>
          obtain ⟨e, rest2⟩ := pr
          have hh := (ihU rest (tail_tokInv hts)).1 e rest2 h
          refine ihAndT first (acc ++ [e]) rest2 hfirst ?_ hh.2
          intro x hx
          rcases List.mem_append.mp hx with hx2 | hx2
          · exact hacc x hx2
          · rw [List.mem_singleton.mp hx2]
            exact hh.1
      · next hne =>
        exact parseResInv_ok _ _ (exprInv_mkBoolOp true first acc hfirst hacc) hts
    have hAnd : ∀ ts, (∀ t ∈ ts, tokInv t) → parseResInv (parseAnd (n+1) ts) := by
      intro ts hts
      rw [parseAnd.eq_def]
      try simp only []
      cases h : parseUnary n ts with
      | error e => exact parseResInv_error e ((ihU ts hts).2 e h)
      | ok pr =>
        obtain ⟨first, rest⟩ := pr
        have hh := (ihU ts hts).1 first rest h
        exact ihAndT first [] rest hh.1 (by intro e he; cases he) hh.2
    have hOrT : ∀ first acc ts, exprInv first → (∀ e ∈ acc, exprInv e) →
        (∀ t ∈ ts, tokInv t) → parseResInv (parseOrTail (n+1) first acc ts) := by
      intro first acc ts hfirst hacc hts
      rw [parseOrTail.eq_def]
      try simp only []
      split
      · next p rest =>
        try simp only []
        cases h : parseAnd n rest with
        | error e => exact parseResInv_error e ((ihAnd rest (tail_tokInv hts)).2 e h)
        | ok pr =>
          obtain ⟨e, rest2⟩ := pr
          have hh := (ihAnd rest (tail_tokInv hts)).1 e rest2 h
          refine ihOrT first (acc ++ [e]) rest2 hfirst ?_ hh.2
          intro x hx
          rcases List.mem_append.mp hx with hx2 | hx2
          · exact hacc x hx2
          · rw [List.mem_singleton.mp hx2]
            exact hh.1
      · next hne =>
        exact parseResInv_ok _ _ (exprInv_mkBoolOp false first acc hfirst hacc) hts
    have hOr : ∀ ts, (∀ t ∈ ts, tokInv t) → parseResInv (parseOr (n+1) ts) := by
      intro ts hts
      rw [parseOr.eq_def]
      try simp only []
      cases h : parseAnd n ts with
      | error e => exact parseResInv_error e ((ihAnd ts hts).2 e h)
      | ok pr =>
        obtain ⟨first, rest⟩ := pr
        have hh := (ihAnd ts hts).1 first rest h
        exact ihOrT first [] rest hh.1 (by intro e he; cases he) hh.2
    exact ⟨hOr, hOrT, hAnd, hAndT, hU, hC, hCT, hOp⟩

/-! ### The claims settled on concrete inputs -/

/-- C1 (the claim describes intended behavior the code does not
implement): when the field's converter raises on the evaluated raw
value, `build` propagates the converter's own exception unchanged —
here `int("12x")`'s `ValueError`, whose message does not name the field
and which has no chained cause.  The `try/except (ValueError,
TypeError)` in `_parse_comparison` wraps the `_convert_rel_op` call
(which only raises `SyntaxError`) instead of the converter call, so the
"Failed to apply converter to field" re-raise is dead code. -/
theorem c1_converter_error_escapes_unwrapped :
    build "count eq \x2712x\x27" testRegistry =
      .error (.valueError "invalid literal for int() with base 10: \x2712x\x27") := by
  decide

/-- C2 counterexample: for the query `date eq 'GT'` the raw value
passed to the converter is `" >"`, not the text `"GT"` between the
quotes: the whole query (string literals included) is lower-cased and
keyword-substituted before parsing. -/
theorem c2_string_literal_normalized_counterexample :
    build "date eq \x27GT\x27" testRegistry = .ok (.comparison .eq "date" (.str " >"))
    ∧ RawValue.str " >" ≠ RawValue.str "GT" :=
  ⟨by decide, by decide⟩

/-- C3 counterexample: the unknown-field failure is a plain `NameError`
carrying only a message — no filename placeholder, no line, no column,
no source-line text — so not every error raised by `build` carries the
claimed position data. -/
theorem c3_unknown_field_error_has_no_position :
    build "size gt 3" testRegistry = .error (.nameError "No such field \x27size\x27") := by
  decide

/-- C4 counterexample: registry keys are used exactly as given (never
lowercased), so a registry key `"Count"` is never matched: the query
field `Count` (lower-cased to `count` with the whole query) fails as an
unknown field even though it differs from the key only by letter
case. -/
theorem c4_uppercase_registry_key_never_matches :
    build "Count gt 1" [("Count", intConverter)] =
      .error (.nameError "No such field \x27count\x27") := by
  decide

/-- C6: `and` binds tighter than `or` — `a eq 1 or b eq 2 and c eq 3`
builds `Or(Eq(a,1), And(Eq(b,2), Eq(c,3)))` — and parentheses override
the precedence. -/
theorem c6_precedence_and_over_or :
    build "a eq 1 or b eq 2 and c eq 3" testRegistry =
      .ok (.logicalOperator .lor (.ofList
        [.comparison .eq "a" (.intVal 1),
         .logicalOperator .land (.ofList
           [.comparison .eq "b" (.intVal 2), .comparison .eq "c" (.intVal 3)])]))
    ∧ build "(a eq 1 or b eq 2) and c eq 3" testRegistry =
      .ok (.logicalOperator .land (.ofList
        [.logicalOperator .lor (.ofList
           [.comparison .eq "a" (.intVal 1), .comparison .eq "b" (.intVal 2)]),
         .comparison .eq "c" (.intVal 3)])) :=
  ⟨by decide, by decide⟩

/-- C7 counterexample: replacing the whole-word keyword `gt` inside a
string literal by its symbolic form `>` changes the resulting AST: the
normalizer rewrites `gt` to `" >"` even between quotes, so
`x eq 'gt'` and `x eq '>'` both succeed but with different comparison
values. -/
theorem c7_keyword_in_string_literal_not_interchangeable :
    build "x eq \x27gt\x27" testRegistry = .ok (.comparison .eq "x" (.str " >"))
    ∧ build "x eq \x27>\x27" testRegistry = .ok (.comparison .eq "x" (.str ">"))
    ∧ RawValue.str " >" ≠ RawValue.str ">" :=
  ⟨by decide, by decide, by decide⟩

/-- C7 as amended: in comparison-operator position (outside string
literals) the word form of each of the six relational operators — in
lower or upper case — and its symbolic form yield identical ASTs. -/
theorem c7_operator_forms_interchangeable_outside_strings :
    build "count eq 1" testRegistry = build "count == 1" testRegistry
    ∧ build "count EQ 1" testRegistry = build "count == 1" testRegistry
    ∧ build "count ne 1" testRegistry = build "count != 1" testRegistry
    ∧ build "count NE 1" testRegistry = build "count != 1" testRegistry
    ∧ build "count gt 1" testRegistry = build "count > 1" testRegistry
    ∧ build "count GT 1" testRegistry = build "count > 1" testRegistry
    ∧ build "count lt 1" testRegistry = build "count < 1" testRegistry
    ∧ build "count LT 1" testRegistry = build "count < 1" testRegistry
    ∧ build "count ge 1" testRegistry = build "count >= 1" testRegistry
    ∧ build "count GE 1" testRegistry = build "count >= 1" testRegistry
    ∧ build "count le 1" testRegistry = build "count <= 1" testRegistry
    ∧ build "count LE 1" testRegistry = build "count <= 1" testRegistry := by
  refine ⟨?_, ?_, ?_, ?_, ?_, ?_, ?_, ?_, ?_, ?_, ?_, ?_⟩ <;> decide

/-! ### C4: registry lookup -/

theorem resultAst_rewrite (q : String) (r : Except PyError Ast) :
    resultAst (rewriteSyntaxErrorText q r) = resultAst r := by
  cases r with
  | ok a => rfl
  | error e =>
    cases e with
    | syntaxError m fn l o t =>
      rcases h : (splitlines q).get? (l - 1) with _ | line <;>
        rw [List.get?_eq_getElem?] at h <;>
        simp [rewriteSyntaxErrorText, h, resultAst]
    | nameError m => rfl
    | valueError m => rfl
    | typeError m => rfl
    | assertionError => rfl
    | indexError => rfl
    | outOfFuel => rfl

/-- The successful outcome of a build depends only on the normalized
form of the stripped query (the original text is consulted again only
when re-raising a `SyntaxError`). -/
theorem build_resultAst_eq_of_normalize_eq (g f : String) (fvc : Registry)
    (h : queryToPythonExpression (pyStrip g) = queryToPythonExpression (pyStrip f)) :
    resultAst (build g fvc) = resultAst (build f fvc) := by
  unfold build makeAst
  rw [resultAst_rewrite, resultAst_rewrite, h]

/-- C4 as amended: lookup is case-insensitive in the query's field name
only.  The whole query — hence each field name — is lowercased before
anything is parsed, so any two queries agreeing after lowercasing build
the same AST, and a field resolves exactly when its lowercased spelling
is literally a registry key (which is why an all-lowercase key matches
any spelling of the field, while a registry key containing an uppercase
letter is never matched). -/
theorem c4_lookup_lowercases_query_name_only :
    (∀ g f fvc, pyLower (pyStrip g) = pyLower (pyStrip f) →
        resultAst (build g fvc) = resultAst (build f fvc))
    ∧ build "COUNT gt 1" [("count", intConverter)] =
        .ok (.comparison .gt "count" (.intVal 1)) := by
  constructor
  · intro g f fvc h
    apply build_resultAst_eq_of_normalize_eq
    unfold queryToPythonExpression
    rw [h]
  · decide

/-- Witness for C4: `COUNT gt 1` and `count gt 1` build the same AST
against the registry with the all-lowercase key `count`. -/
theorem c4_witness :
    resultAst (build "COUNT gt 1" [("count", intConverter)]) =
      resultAst (build "count gt 1" [("count", intConverter)]) :=
  c4_lookup_lowercases_query_name_only.1 "COUNT gt 1" "count gt 1"
    [("count", intConverter)] (by decide)

/-- C10: the chained comparison `count lt 1 lt 2` parses to one
`Compare` node with two operators, and `_parse_comparison`'s
three-way unpacking of its children raises the plain `ValueError` of
tuple unpacking — no source position, outside the documented
SyntaxError/unknown-field/conversion taxonomy. -/
theorem c10_chained_comparison_plain_valueerror :
    build "count lt 1 lt 2" testRegistry =
      .error (.valueError "too many values to unpack (expected 3)") := by
  decide

/-! ### Validator invariants and the C3 / C9 claims -/

theorem synErrWf_of_not_syntax (e : PyError) (h : errIsSyntax e = false) : synErrWf e := by
  cases e <;> first | trivial | exact absurd h (by simp [errIsSyntax])

theorem synErrWf_raise (msg : String) (p : Pos) (hp : posWf p) :
    synErrWf (raiseSyntaxError msg p) := ⟨rfl, hp⟩

theorem parseValueNode_errWf : ∀ (node : PyExpr), exprInv node →
    ∀ e, parseValueNode node = .error e → synErrWf e
  | .usub operand p, hinv, e, he => by
    rw [parseValueNode.eq_def] at he
    simp only [] at he
    cases h : parseValueNode operand with
    | error e2 =>
      rw [h] at he
      injection he with he
      subst he
      exact parseValueNode_errWf operand hinv.2 e2 h
    | ok v =>
      rw [h] at he
      simp only [] at he
      cases hv : negRaw v with
      | some v2 => rw [hv] at he; exact absurd he (by simp)
      | none =>
        rw [hv] at he
        injection he with he
        subst he
        exact synErrWf_raise _ _ hinv.1
  | .strLit s p, hinv, e, he => absurd he (by simp [parseValueNode])
  | .numInt v p, hinv, e, he => absurd he (by simp [parseValueNode])
  | .numFloat v p, hinv, e, he => absurd he (by simp [parseValueNode])
  | .name s p, hinv, e, he => by
    rw [parseValueNode.eq_def] at he
    injection he with he
    subst he
    exact synErrWf_raise _ _ hinv.1
  | .notOp operand p, hinv, e, he => by
    rw [parseValueNode.eq_def] at he
    injection he with he
    subst he
    exact synErrWf_raise _ _ hinv.1
  | .boolOp k vs p, hinv, e, he => by
    rw [parseValueNode.eq_def] at he
    injection he with he
    subst he
    exact synErrWf_raise _ _ hinv.1
  | .compare l ops cs p, hinv, e, he => by
    rw [parseValueNode.eq_def] at he
    injection he with he
    subst he
    exact synErrWf_raise _ _ hinv.1
  | .tupleNode p, hinv, e, he => by
    rw [parseValueNode.eq_def] at he
    injection he with he
    subst he
    exact synErrWf_raise _ _ hinv

theorem convertRelOp_errWf (op : CmpTok) (p : Pos) (hp : posWf p) :
    ∀ e, convertRelOp op p = .error e → synErrWf e := by
  intro e he
  cases op <;> simp [convertRelOp] at he
  subst he
  exact synErrWf_raise _ _ hp

theorem wrapConverterFailure_errWf (nm : String) (r : Except PyError RelOp)
    (hr : ∀ e, r = .error e → synErrWf e) :
    ∀ e, wrapConverterFailure nm r = .error e → synErrWf e := by
  intro e he
  rw [wrapConverterFailure.eq_def] at he
  split at he
  · injection he with he; subst he; trivial
  · injection he with he; subst he; trivial
  · next r2 hn1 hn2 =>
    exact hr e he

theorem registryGet_mem (fvc : Registry) (k : String) (conv : Converter)
    (h : registryGet fvc k = some conv) : ∃ p ∈ fvc, p.2 = conv := by
  induction fvc with
  | nil => simp [registryGet] at h
  | cons p rest ih =>
    rw [registryGet.eq_def] at h
    simp only [] at h
    by_cases hk : p.1 = k
    · rw [if_pos hk] at h
      injection h with h
      exact ⟨p, by simp, h⟩
    · rw [if_neg hk] at h
      obtain ⟨q, hq, hq2⟩ := ih h
      exact ⟨q, by simp [hq], hq2⟩

theorem parseComparison_errWf (fvc : Registry) (hreg : RegWf fvc) (node : PyExpr)
    (hinv : exprInv node) : ∀ e, parseComparison fvc node = .error e → synErrWf e := by
  intro e he
  rw [parseComparison.eq_def] at he
  split at he
  · next left ops comps nodePos =>
    split at he
    · next astOp valueNode =>
      split at he
      · next nameId pn =>
        -- sequence: parseValueNode, registryGet, converter, wrapped op
        cases hv : parseValueNode valueNode with
        | error e2 =>
          rw [hv] at he
          injection he with he
          subst he
          exact parseValueNode_errWf valueNode (by exact hinv.2.2.1) e2 hv
        | ok value =>
          rw [hv] at he
          simp only [] at he
          cases hg : registryGet fvc nameId with
          | none =>
            rw [hg] at he
            injection he with he
            subst he
            trivial
          | some conv =>
            rw [hg] at he
            simp only [] at he
            cases hc : conv value with
            | error e2 =>
              rw [hc] at he
              injection he with he
              subst he
              obtain ⟨pr, hpr, hpr2⟩ := registryGet_mem fvc nameId conv hg
              exact synErrWf_of_not_syntax e2 (hreg pr hpr value e2 (by rw [hpr2]; exact hc))
            | ok cv =>
              rw [hc] at he
              simp only [] at he
              cases hw : wrapConverterFailure nameId (convertRelOp astOp nodePos) with
              | error e2 =>
                rw [hw] at he
                injection he with he
                subst he
                exact wrapConverterFailure_errWf nameId _
                  (convertRelOp_errWf astOp nodePos hinv.1) e2 hw
              | ok op =>
                rw [hw] at he
                exact absurd he (by simp)
      · injection he with he; subst he; trivial
    · injection he with he; subst he; trivial
  · injection he with he; subst he; trivial



theorem parseNodeList_length (fvc : Registry) : ∀ (vs : PyExprList) (as_ : AstList),
    parseNodeList fvc vs = .ok as_ → as_.length = vs.length
  | .nil, as_, h => by
    rw [parseNodeList.eq_def] at h
    injection h with h
    subst h
    rfl
  | .cons e es, as_, h => by
    rw [parseNodeList.eq_def] at h
    simp only [] at h
    cases h1 : parseNode fvc e with
    | error err => rw [h1] at h; exact absurd h (by simp)
    | ok a =>
      rw [h1] at h
      simp only [] at h
      cases h2 : parseNodeList fvc es with
      | error err => rw [h2] at h; exact absurd h (by simp)
      | ok as2 =>
        rw [h2] at h
        injection h with h
        subst h
        show (AstList.cons a as2).length = (PyExprList.cons e es).length
        rw [AstList.length, PyExprList.length, parseNodeList_length fvc es as2 h2]

mutual
theorem parseNode_astWf (fvc : Registry) : ∀ (node : PyExpr), exprInv node →
    ∀ a, parseNode fvc node = .ok a → astWf a = true
  | .compare left ops comps p, hinv, a, h => by
    rw [parseNode.eq_def] at h
    simp only [] at h
    rw [parseComparison.eq_def] at h
    simp only [] at h
    split at h
    · next astOp valueNode =>
      split at h
      · next nameId pn =>
        cases hv : parseValueNode valueNode with
        | error e2 => rw [hv] at h; exact absurd h (by simp)
        | ok value =>
          rw [hv] at h
          simp only [] at h
          cases hg : registryGet fvc nameId with
          | none => rw [hg] at h; exact absurd h (by simp)
          | some conv =>
            rw [hg] at h
            simp only [] at h
            cases hc : conv value with
            | error e2 => rw [hc] at h; exact absurd h (by simp)
            | ok cv =>
              rw [hc] at h
              simp only [] at h
              cases hw : wrapConverterFailure nameId (convertRelOp astOp p) with
              | error e2 => rw [hw] at h; exact absurd h (by simp)
              | ok op =>
                rw [hw] at h
                injection h with h
                subst h
                show (astWf (.comparison op nameId cv)) = true
                have hn : exprInv (.name nameId pn) := hinv.2.1
                exact hn.2
      · exact absurd h (by simp)
    · exact absurd h (by simp)
  | .boolOp k vs p, hinv, a, h => by
    rw [parseNode.eq_def] at h
    simp only [] at h
    cases h1 : parseNodeList fvc vs with
    | error err => rw [h1] at h; exact absurd h (by simp)
    | ok operands =>
      rw [h1] at h
      injection h with h
      subst h
      have hlen : operands.length = vs.length := parseNodeList_length fvc vs operands h1
      have hwf : astListWf operands = true :=
        parseNodeList_astWf fvc vs hinv.2.2 operands h1
      have h2 : 2 ≤ operands.length := hlen ▸ hinv.2.1
      cases k
      · show (decide (2 ≤ operands.length) && astListWf operands) = true
        rw [hwf]
        simp [h2]
      · show (decide (2 ≤ operands.length) && astListWf operands) = true
        rw [hwf]
        simp [h2]
  | .notOp operand p, hinv, a, h => by
    rw [parseNode.eq_def] at h
    simp only [] at h
    cases h1 : parseNode fvc operand with
    | error err => rw [h1] at h; exact absurd h (by simp)
    | ok a2 =>
      rw [h1] at h
      injection h with h
      subst h
      show astWf (.logicalOperator .lnot (.cons a2 .nil)) = true
      rw [astWf.eq_def]
      simp only []
      simp [AstList.length, astListWf, parseNode_astWf fvc operand hinv.2 a2 h1]
  | .name s p, hinv, a, h => absurd h (by simp [parseNode])
  | .strLit s p, hinv, a, h => absurd h (by simp [parseNode])
  | .numInt v p, hinv, a, h => absurd h (by simp [parseNode])
  | .numFloat v p, hinv, a, h => absurd h (by simp [parseNode])
  | .usub operand p, hinv, a, h => absurd h (by simp [parseNode])
  | .tupleNode p, hinv, a, h => absurd h (by simp [parseNode])

theorem parseNodeList_astWf (fvc : Registry) : ∀ (vs : PyExprList), exprListInv vs →
    ∀ as_, parseNodeList fvc vs = .ok as_ → astListWf as_ = true
  | .nil, hinv, as_, h => by
    rw [parseNodeList.eq_def] at h
    injection h with h
    subst h
    rfl
  | .cons e es, hinv, as_, h => by
    rw [parseNodeList.eq_def] at h
    simp only [] at h
    cases h1 : parseNode fvc e with
    | error err => rw [h1] at h; exact absurd h (by simp)
    | ok a =>
      rw [h1] at h
      simp only [] at h
      cases h2 : parseNodeList fvc es with
      | error err => rw [h2] at h; exact absurd h (by simp)
      | ok as2 =>
        rw [h2] at h
        injection h with h
        subst h
        show astListWf (.cons a as2) = true
        rw [astListWf.eq_def]
        simp only []
        rw [parseNode_astWf fvc e hinv.1 a h1, parseNodeList_astWf fvc es hinv.2 as2 h2]
        rfl
end



mutual
theorem parseNode_errWf (fvc : Registry) (hreg : RegWf fvc) : ∀ (node : PyExpr),
    exprInv node → ∀ e, parseNode fvc node = .error e → synErrWf e
  | .compare left ops comps p, hinv, e, h => by
    rw [parseNode.eq_def] at h
    simp only [] at h
    exact parseComparison_errWf fvc hreg _ hinv e h
  | .boolOp k vs p, hinv, e, h => by
    rw [parseNode.eq_def] at h
    simp only [] at h
    cases h1 : parseNodeList fvc vs with
    | error err =>
      rw [h1] at h
      injection h with h
      subst h
      exact parseNodeList_errWf fvc hreg vs hinv.2.2 err h1
    | ok operands => rw [h1] at h; exact absurd h (by simp)
  | .notOp operand p, hinv, e, h => by
    rw [parseNode.eq_def] at h
    simp only [] at h
    cases h1 : parseNode fvc operand with
    | error err =>
      rw [h1] at h
      injection h with h
      subst h
      exact parseNode_errWf fvc hreg operand hinv.2 err h1
    | ok a => rw [h1] at h; exact absurd h (by simp)
  | .name s p, hinv, e, h => by
    rw [parseNode.eq_def] at h
    injection h with h
    subst h
    exact synErrWf_raise _ _ hinv.1
  | .strLit s p, hinv, e, h => by
    rw [parseNode.eq_def] at h
    injection h with h
    subst h
    exact synErrWf_raise _ _ hinv
  | .numInt v p, hinv, e, h => by
    rw [parseNode.eq_def] at h
    injection h with h
    subst h
    exact synErrWf_raise _ _ hinv
  | .numFloat v p, hinv, e, h => by
    rw [parseNode.eq_def] at h
    injection h with h
    subst h
    exact synErrWf_raise _ _ hinv
  | .usub operand p, hinv, e, h => by
    rw [parseNode.eq_def] at h
    injection h with h
    subst h
    exact synErrWf_raise _ _ hinv.1
  | .tupleNode p, hinv, e, h => by
    rw [parseNode.eq_def] at h
    injection h with h
    subst h
    exact synErrWf_raise _ _ hinv

theorem parseNodeList_errWf (fvc : Registry) (hreg : RegWf fvc) : ∀ (vs : PyExprList),
    exprListInv vs → ∀ e, parseNodeList fvc vs = .error e → synErrWf e
  | .nil, hinv, e, h => absurd h (by simp [parseNodeList])
  | .cons x es, hinv, e, h => by
    rw [parseNodeList.eq_def] at h
    simp only [] at h
    cases h1 : parseNode fvc x with
    | error err =>
      rw [h1] at h
      injection h with h
      subst h
      exact parseNode_errWf fvc hreg x hinv.1 err h1
    | ok a =>
      rw [h1] at h
      simp only [] at h
      cases h2 : parseNodeList fvc es with
      | error err =>
        rw [h2] at h
        injection h with h
        subst h
        exact parseNodeList_errWf fvc hreg es hinv.2 err h2
      | ok as2 => rw [h2] at h; exact absurd h (by simp)
end

theorem parseExprToks_errWf (ts : List Tok) (hts : ∀ t ∈ ts, tokInv t) :
    ∀ e, parseExprToks ts = .error e → errLineWf e := by
  intro e h
  rw [parseExprToks.eq_def] at h
  cases h1 : parseOr (8 * ts.length + 64) ts with
  | error e2 =>
    rw [h1] at h
    injection h with h
    subst h
    exact ((parser_inv _).1 ts hts).2 e2 h1
  | ok pr =>
    rw [h1] at h
    obtain ⟨e2, rest⟩ := pr
    cases rest with
    | nil => exact absurd h (by simp)
    | cons t tail =>
      simp only [] at h
      injection h with h
      subst h
      exact tokInv_pos t (head_tokInv (((parser_inv _).1 ts hts).1 e2 (t :: tail) h1).2)

theorem parseExprToks_inv (ts : List Tok) (hts : ∀ t ∈ ts, tokInv t) :
    ∀ e, parseExprToks ts = .ok e → exprInv e := by
  intro e h
  rw [parseExprToks.eq_def] at h
  cases h1 : parseOr (8 * ts.length + 64) ts with
  | error e2 => rw [h1] at h; exact absurd h (by simp)
  | ok pr =>
    rw [h1] at h
    obtain ⟨e2, rest⟩ := pr
    cases rest with
    | nil =>
      simp only [] at h
      injection h with h
      subst h
      exact (((parser_inv _).1 ts hts).1 e2 [] h1).1
    | cons t tail => simp only [] at h; exact absurd h (by simp)

theorem attach_synErrWf (e : PyError) (he : errLineWf e) :
    synErrWf (attachFilename PSEUDO_FILENAME e) := by
  cases e <;> first | trivial | exact ⟨rfl, he⟩

theorem pyParse_errWf (src : String) (hsrc : src.data.all (fun c => !c.isUpper) = true) :
    ∀ e, pyParse PSEUDO_FILENAME src = .error e → synErrWf e := by
  intro e h
  rw [pyParse.eq_def] at h
  cases h1 : lexAux (src.length + 8) src.data 1 0 with
  | error e2 =>
    rw [h1] at h
    injection h with h
    subst h
    exact attach_synErrWf e2 ((lexAux_inv _ src.data 1 0 (Nat.le_refl 1) hsrc).2 e2 h1)
  | ok toks =>
    rw [h1] at h
    simp only [] at h
    cases h2 : parseExprToks toks with
    | error e2 =>
      rw [h2] at h
      injection h with h
      subst h
      exact attach_synErrWf e2
        (parseExprToks_errWf toks
          ((lexAux_inv _ src.data 1 0 (Nat.le_refl 1) hsrc).1 toks h1) e2 h2)
    | ok e2 => rw [h2] at h; exact absurd h (by simp)

theorem pyParse_ok_inv (src : String) (hsrc : src.data.all (fun c => !c.isUpper) = true) :
    ∀ root, pyParse PSEUDO_FILENAME src = .ok root → exprInv root := by
  intro root h
  rw [pyParse.eq_def] at h
  cases h1 : lexAux (src.length + 8) src.data 1 0 with
  | error e2 => rw [h1] at h; exact absurd h (by simp)
  | ok toks =>
    rw [h1] at h
    simp only [] at h
    cases h2 : parseExprToks toks with
    | error e2 => rw [h2] at h; exact absurd h (by simp)
    | ok e2 =>
      rw [h2] at h
      injection h with h
      subst h
      exact parseExprToks_inv toks
        ((lexAux_inv _ src.data 1 0 (Nat.le_refl 1) hsrc).1 toks h1) _ h2

theorem rewrite_ok_inv (q : String) (r : Except PyError Ast) (a : Ast)
    (h : rewriteSyntaxErrorText q r = .ok a) : r = .ok a := by
  cases r with
  | ok a2 => exact h
  | error e =>
    cases e with
    | syntaxError m fn l o t =>
      rw [rewriteSyntaxErrorText.eq_def] at h
      simp only [] at h
      cases hg : (splitlines q).get? (l - 1) with
      | some line => rw [hg] at h; exact absurd h (by simp)
      | none => rw [hg] at h; exact absurd h (by simp)
    | nameError m => exact absurd h (by simp [rewriteSyntaxErrorText])
    | valueError m => exact absurd h (by simp [rewriteSyntaxErrorText])
    | typeError m => exact absurd h (by simp [rewriteSyntaxErrorText])
    | assertionError => exact absurd h (by simp [rewriteSyntaxErrorText])
    | indexError => exact absurd h (by simp [rewriteSyntaxErrorText])
    | outOfFuel => exact absurd h (by simp [rewriteSyntaxErrorText])



theorem rewrite_err_shape (q : String) (e : PyError) (hwf : synErrWf e)
    (m fn : String) (l o : Nat) (t : String)
    (h : rewriteSyntaxErrorText q (.error e) = .error (.syntaxError m fn l o t)) :
    fn = PSEUDO_FILENAME ∧ 1 ≤ l ∧ (splitlines q).get? (l - 1) = some t := by
  cases e with
  | syntaxError m0 fn0 l0 o0 t0 =>
    rw [rewriteSyntaxErrorText.eq_def] at h
    simp only [] at h
    cases hg : (splitlines q).get? (l0 - 1) with
    | some line =>
      rw [hg] at h
      injection h with h
      injection h with h1 h2 h3 h4 h5
      subst h1
      subst h2
      subst h3
      subst h4
      subst h5
      exact ⟨hwf.1, hwf.2, hg⟩
    | none =>
      rw [hg] at h
      injection h with h
      injection h
  | nameError m0 => simp [rewriteSyntaxErrorText] at h
  | valueError m0 => simp [rewriteSyntaxErrorText] at h
  | typeError m0 => simp [rewriteSyntaxErrorText] at h
  | assertionError => simp [rewriteSyntaxErrorText] at h
  | indexError => simp [rewriteSyntaxErrorText] at h
  | outOfFuel => simp [rewriteSyntaxErrorText] at h

/-- C3 as amended: every `SyntaxError` raised by the build operation
carries the fixed pseudo-filename and a 1-based line number, and its
text field is the corresponding line of the original (stripped) query
text, which is meaningful because the normalization is
length-preserving; errors of the other kinds (unknown field, chained
comparison, converter failures) carry only a message and no
position. -/
theorem c3_syntax_errors_carry_original_line :
    (∀ q fvc m fn l o t, RegWf fvc →
        build q fvc = .error (.syntaxError m fn l o t) →
        fn = PSEUDO_FILENAME ∧ 1 ≤ l ∧ (splitlines (pyStrip q)).get? (l - 1) = some t)
    ∧ (∀ s, (queryToPythonExpression s).length = s.length) := by
  constructor
  · intro q fvc m fn l o t hreg h
    unfold build makeAst at h
    cases hp : pyParse PSEUDO_FILENAME (queryToPythonExpression (pyStrip q)) with
    | error e =>
      rw [hp] at h
      exact rewrite_err_shape _ e
        (pyParse_errWf _ (noUpper_queryToPythonExpression _) e hp) m fn l o t h
    | ok root =>
      rw [hp] at h
      simp only [] at h
      cases hn : parseNode fvc root with
      | ok a => rw [hn] at h; simp [rewriteSyntaxErrorText] at h
      | error e =>
        rw [hn] at h
        exact rewrite_err_shape _ e
          (parseNode_errWf fvc hreg root
            (pyParse_ok_inv _ (noUpper_queryToPythonExpression _) root hp) e hn) m fn l o t h
  · exact length_queryToPythonExpression

/-- C9: every AST a successful build returns satisfies the structural
invariant: `And`/`Or` nodes have at least two operands, `Not` nodes
exactly one, and comparison field names are stored without uppercase
letters. -/
theorem c9_ast_structural_invariants :
    ∀ q fvc a, build q fvc = .ok a → astWf a = true := by
  intro q fvc a h
  unfold build makeAst at h
  have h2 := rewrite_ok_inv _ _ _ h
  cases hp : pyParse PSEUDO_FILENAME (queryToPythonExpression (pyStrip q)) with
  | error e => rw [hp] at h2; exact absurd h2 (by simp)
  | ok root =>
    rw [hp] at h2
    exact parseNode_astWf fvc root
      (pyParse_ok_inv _ (noUpper_queryToPythonExpression _) root hp) a h2

theorem intConverter_not_syntax : ∀ v e, intConverter v = .error e → errIsSyntax e = false := by
  intro v e h
  cases v with
  | str s =>
    rw [intConverter.eq_def] at h
    simp only [] at h
    cases hp : pyIntOfString s with
    | error e2 =>
      rw [hp] at h
      injection h with h
      subst h
      rw [pyIntOfString.eq_def] at hp
      simp only [] at hp
      split at hp
      · exact absurd hp (by simp)
      · injection hp with hp
        subst hp
        rfl
    | ok n => rw [hp] at h; exact absurd h (by simp)
  | intVal n => exact absurd h (by simp [intConverter])
  | floatVal f => exact absurd h (by simp [intConverter])

theorem regWf_testRegistry : RegWf testRegistry := by
  intro p hp v e h
  simp only [testRegistry, List.mem_cons, List.mem_singleton, List.not_mem_nil, or_false] at hp
  rcases hp with rfl | rfl | rfl | rfl | rfl | rfl
  · exact intConverter_not_syntax v e h
  · exact intConverter_not_syntax v e h
  · exact intConverter_not_syntax v e h
  · exact intConverter_not_syntax v e h
  · exact absurd h (by simp [identityConverter])
  · exact absurd h (by simp [identityConverter])

/-- Witness for C3: the query `count eq num` raises a positioned syntax
error whose text is the original query line. -/
theorem c3_witness :
    "<web request>" = PSEUDO_FILENAME ∧ 1 ≤ 1 ∧
      (splitlines (pyStrip "count eq num")).get? (1 - 1) = some "count eq num" :=
  c3_syntax_errors_carry_original_line.1 "count eq num" testRegistry
    "Value is not a number or a string" "<web request>" 1 9 "count eq num"
    regWf_testRegistry (by decide)

/-- Witness for C9: the invariant holds of a concretely built AST. -/
theorem c9_witness :
    astWf (.logicalOperator .land (.ofList
      [.comparison .eq "a" (.intVal 1),
       .logicalOperator .lnot (.ofList [.comparison .eq "b" (.intVal 2)])])) = true :=
  c9_ast_structural_invariants "a eq 1 and not b eq 2" testRegistry _ (by decide)

/-! ### Same-connective chains flatten to one n-ary node (C5) -/

theorem noCmpHead_andTail (items : List ChainItem) : noCmpHead (andTailToks items) := by
  cases items <;> trivial

theorem noCmpHead_orTail (items : List ChainItem) : noCmpHead (orTailToks items) := by
  cases items <;> trivial

theorem parseUnary_comp (f : Nat) (it : ChainItem) (rest : List Tok)
    (hrest : noCmpHead rest) :
    parseUnary (f + 4) (compToks it ++ rest) = .ok (compNode it, rest) := by
  show parseCmpTail (f + 1) (.name it.1 ⟨1, 0⟩) [cmpOfRel it.2.1] [.numInt it.2.2 ⟨1, 0⟩] rest =
    .ok (compNode it, rest)
  rw [parseCmpTail.eq_def]
  simp only []
  split
  · next o p rest2 =>
    exact hrest.elim
  · next hne =>
    rfl


theorem parseAndTail_chain : ∀ (items : List ChainItem) (f : Nat) (first : PyExpr)
    (acc : List PyExpr),
    parseAndTail (f + 5 * items.length + 1) first acc (andTailToks items) =
      .ok (mkBoolOp true first (acc ++ items.map compNode), [])
  | [], f, first, acc => by
    show parseAndTail (f + 1) first acc [] = _
    rw [List.map_nil, List.append_nil]
    rfl
  | it :: rest, f, first, acc => by
    rw [andTailToks, List.length_cons]
    have e1 : f + 5 * (rest.length + 1) + 1 = ((f + 5 * rest.length + 1) + 4) + 1 := by ring
    rw [e1]
    show (match parseUnary ((f + 5 * rest.length + 1) + 4) (compToks it ++ andTailToks rest) with
      | Except.error e => Except.error e
      | Except.ok (e, rest2) =>
        parseAndTail ((f + 5 * rest.length + 1) + 4) first (acc ++ [e]) rest2 :
        Except PyError (PyExpr × List Tok)) = _
    rw [parseUnary_comp (f + 5 * rest.length + 1) it (andTailToks rest) (noCmpHead_andTail rest)]
    simp only []
    have e3 : (f + 5 * rest.length + 1) + 4 = (f + 4) + 5 * rest.length + 1 := by ring
    rw [e3, parseAndTail_chain rest (f + 4) first (acc ++ [compNode it])]
    simp

theorem parseOrTail_chain : ∀ (items : List ChainItem) (f : Nat) (first : PyExpr)
    (acc : List PyExpr),
    parseOrTail (f + 7 * items.length + 1) first acc (orTailToks items) =
      .ok (mkBoolOp false first (acc ++ items.map compNode), [])
  | [], f, first, acc => by
    show parseOrTail (f + 1) first acc [] = _
    rw [List.map_nil, List.append_nil]
    rfl
  | it :: rest, f, first, acc => by
    rw [orTailToks, List.length_cons]
    have e1 : f + 7 * (rest.length + 1) + 1 = ((f + 7 * rest.length + 6) + 1) + 1 := by ring
    rw [e1]
    show (match parseAnd ((f + 7 * rest.length + 6) + 1) (compToks it ++ orTailToks rest) with
      | Except.error e => Except.error e
      | Except.ok (e, rest2) =>
        parseOrTail ((f + 7 * rest.length + 6) + 1) first (acc ++ [e]) rest2 :
        Except PyError (PyExpr × List Tok)) = _
    have hAnd : parseAnd ((f + 7 * rest.length + 6) + 1)
        (compToks it ++ orTailToks rest) = .ok (compNode it, orTailToks rest) := by
      show (match parseUnary (f + 7 * rest.length + 6) (compToks it ++ orTailToks rest) with
        | Except.error e => Except.error e
        | Except.ok (first2, rest2) =>
          parseAndTail (f + 7 * rest.length + 6) first2 [] rest2 :
          Except PyError (PyExpr × List Tok)) = _
      have e2 : f + 7 * rest.length + 6 = (f + 7 * rest.length + 2) + 4 := by ring
      rw [e2, parseUnary_comp (f + 7 * rest.length + 2) it (orTailToks rest)
        (noCmpHead_orTail rest)]
      simp only []
      cases rest with
      | nil => rfl
      | cons it2 rest2 => rfl
    rw [hAnd]
    simp only []
    have e5 : (f + 7 * rest.length + 6) + 1 = (f + 6) + 7 * rest.length + 1 := by ring
    rw [e5, parseOrTail_chain rest (f + 6) first (acc ++ [compNode it])]
    simp

theorem convertRelOp_cmpOfRel (r : RelOp) (p : Pos) :
    convertRelOp (cmpOfRel r) p = .ok r := by
  cases r <;> rfl

theorem parseComparison_comp (fvc : Registry) (name : String) (r : RelOp) (n : Int)
    (h : registryGet fvc name = some identityConverter) :
    parseComparison fvc (compNode (name, r, n)) = .ok (.comparison r name (.intVal n)) := by
  cases r <;>
    simp [parseComparison, compNode, parseValueNode, h, identityConverter,
      convertRelOp, cmpOfRel, wrapConverterFailure]

theorem parseNodeList_chain : ∀ (l : List ChainItem) (fvc : Registry),
    (∀ it, it ∈ l → registryGet fvc it.1 = some identityConverter) →
    parseNodeList fvc (PyExprList.ofList (l.map compNode)) =
      .ok (AstList.ofList (l.map compAst))
  | [], _, _ => rfl
  | it :: rest, fvc, h => by
    show (match parseNode fvc (compNode it) with
      | Except.error err => Except.error err
      | Except.ok a =>
        match parseNodeList fvc (PyExprList.ofList (rest.map compNode)) with
        | Except.error err => Except.error err
        | Except.ok as_ => Except.ok (AstList.cons a as_) :
      Except PyError AstList) = _
    have h1 : parseNode fvc (compNode it) = .ok (compAst it) := by
      rcases it with ⟨name, r, n⟩
      exact parseComparison_comp fvc name r n (h _ (List.mem_cons_self _ _))
    rw [h1, parseNodeList_chain rest fvc (fun x hx => h x (List.mem_cons_of_mem _ hx))]
    rfl

theorem parseNode_boolOp (fvc : Registry) (isAnd : Bool) (vals : PyExprList) (p : Pos)
    (l : AstList) (h : parseNodeList fvc vals = .ok l) :
    parseNode fvc (.boolOp isAnd vals p) =
      .ok (.logicalOperator (if isAnd then .land else .lor) l) := by
  show (match parseNodeList fvc vals with
    | Except.error e => Except.error e
    | Except.ok operands =>
      Except.ok (Ast.logicalOperator (if isAnd then LogOp.land else LogOp.lor) operands) :
    Except PyError Ast) = _
  rw [h]

theorem parseOr_andChain (f : Nat) (it0 : ChainItem) (items : List ChainItem) :
    parseOr (f + 5 * items.length + 6) (compToks it0 ++ andTailToks items) =
      .ok (mkBoolOp true (compNode it0) (items.map compNode), []) := by
  have e0 : f + 5 * items.length + 6 = (f + 5 * items.length + 5) + 1 := by ring
  rw [e0]
  show (match parseAnd (f + 5 * items.length + 5) (compToks it0 ++ andTailToks items) with
    | Except.error e => Except.error e
    | Except.ok (first, rest) => parseOrTail (f + 5 * items.length + 5) first [] rest :
    Except PyError (PyExpr × List Tok)) = _
  have hAnd : parseAnd (f + 5 * items.length + 5) (compToks it0 ++ andTailToks items) =
      .ok (mkBoolOp true (compNode it0) (items.map compNode), []) := by
    have e1 : f + 5 * items.length + 5 = (f + 5 * items.length + 4) + 1 := by ring
    rw [e1]
    show (match parseUnary (f + 5 * items.length + 4) (compToks it0 ++ andTailToks items) with
      | Except.error e => Except.error e
      | Except.ok (first, rest) => parseAndTail (f + 5 * items.length + 4) first [] rest :
      Except PyError (PyExpr × List Tok)) = _
    rw [parseUnary_comp (f + 5 * items.length) it0 (andTailToks items)
      (noCmpHead_andTail items)]
    simp only []
    have e3 : f + 5 * items.length + 4 = (f + 3) + 5 * items.length + 1 := by ring
    rw [e3, parseAndTail_chain items (f + 3) (compNode it0) []]
    simp
  rw [hAnd]
  simp only []
  have e4 : f + 5 * items.length + 5 = (f + 5 * items.length + 4) + 1 := by ring
  rw [e4]
  rfl

theorem parseOr_orChain (f : Nat) (it0 : ChainItem) (items : List ChainItem) :
    parseOr (f + 7 * items.length + 9) (compToks it0 ++ orTailToks items) =
      .ok (mkBoolOp false (compNode it0) (items.map compNode), []) := by
  have e0 : f + 7 * items.length + 9 = (f + 7 * items.length + 8) + 1 := by ring
  rw [e0]
  show (match parseAnd (f + 7 * items.length + 8) (compToks it0 ++ orTailToks items) with
    | Except.error e => Except.error e
    | Except.ok (first, rest) => parseOrTail (f + 7 * items.length + 8) first [] rest :
    Except PyError (PyExpr × List Tok)) = _
  have hAnd : parseAnd (f + 7 * items.length + 8) (compToks it0 ++ orTailToks items) =
      .ok (compNode it0, orTailToks items) := by
    have e1 : f + 7 * items.length + 8 = (f + 7 * items.length + 7) + 1 := by ring
    rw [e1]
    show (match parseUnary (f + 7 * items.length + 7) (compToks it0 ++ orTailToks items) with
      | Except.error e => Except.error e
      | Except.ok (first, rest) => parseAndTail (f + 7 * items.length + 7) first [] rest :
      Except PyError (PyExpr × List Tok)) = _
    have e2 : f + 7 * items.length + 7 = (f + 7 * items.length + 3) + 4 := by ring
    rw [e2, parseUnary_comp (f + 7 * items.length + 3) it0 (orTailToks items)
      (noCmpHead_orTail items)]
    simp only []
    have e3 : f + 7 * items.length + 3 + 4 = (f + 7 * items.length + 6) + 1 := by ring
    rw [e3]
    cases items with
    | nil => rfl
    | cons a rest => rfl
  rw [hAnd]
  simp only []
  have e4 : f + 7 * items.length + 8 = (f + 7) + 7 * items.length + 1 := by ring
  rw [e4, parseOrTail_chain items (f + 7) (compNode it0) []]
  simp

theorem andTailToks_length : ∀ items : List ChainItem,
    (andTailToks items).length = 4 * items.length
  | [] => rfl
  | it :: rest => by
    simp [andTailToks, compToks, andTailToks_length rest]
    ring

theorem orTailToks_length : ∀ items : List ChainItem,
    (orTailToks items).length = 4 * items.length
  | [] => rfl
  | it :: rest => by
    simp [orTailToks, compToks, orTailToks_length rest]
    ring

theorem parseExprToks_andChain (it0 : ChainItem) (items : List ChainItem) :
    parseExprToks (compToks it0 ++ andTailToks items) =
      .ok (mkBoolOp true (compNode it0) (items.map compNode)) := by
  show (match parseOr (8 * (compToks it0 ++ andTailToks items).length + 64)
      (compToks it0 ++ andTailToks items) with
    | Except.error e => Except.error e
    | Except.ok (e, []) => Except.ok e
    | Except.ok (_, t :: _) =>
      Except.error (lexErr "invalid syntax" (tokPos t).line (tokPos t).col) :
    Except PyError PyExpr) = _
  have hlen : (compToks it0 ++ andTailToks items).length = 4 * items.length + 3 := by
    rw [List.length_append, andTailToks_length]
    simp [compToks]
    ring
  rw [hlen]
  have e : 8 * (4 * items.length + 3) + 64 =
      (27 * items.length + 82) + 5 * items.length + 6 := by ring
  rw [e, parseOr_andChain (27 * items.length + 82) it0 items]

theorem parseExprToks_orChain (it0 : ChainItem) (items : List ChainItem) :
    parseExprToks (compToks it0 ++ orTailToks items) =
      .ok (mkBoolOp false (compNode it0) (items.map compNode)) := by
  show (match parseOr (8 * (compToks it0 ++ orTailToks items).length + 64)
      (compToks it0 ++ orTailToks items) with
    | Except.error e => Except.error e
    | Except.ok (e, []) => Except.ok e
    | Except.ok (_, t :: _) =>
      Except.error (lexErr "invalid syntax" (tokPos t).line (tokPos t).col) :
    Except PyError PyExpr) = _
  have hlen : (compToks it0 ++ orTailToks items).length = 4 * items.length + 3 := by
    rw [List.length_append, orTailToks_length]
    simp [compToks]
    ring
  rw [hlen]
  have e : 8 * (4 * items.length + 3) + 64 =
      (25 * items.length + 79) + 7 * items.length + 9 := by ring
  rw [e, parseOr_orChain (25 * items.length + 79) it0 items]

/-- **C5**: a chain of three or more comparisons joined by one same
boolean connective yields a single n-ary `LogicalOperator` holding all
operand comparisons in source order, not nested binary pairs —
universally over comparison chains (token level through the validator,
for both connectives), and end-to-end on the spec\x27s example and its
`or` twin. -/
theorem c5_same_connective_chain_flattens
    (it0 : ChainItem) (items : List ChainItem) (h2 : 2 ≤ items.length)
    (fvc : Registry)
    (hreg : ∀ it, it ∈ it0 :: items → registryGet fvc it.1 = some identityConverter) :
    ((∃ node, parseExprToks (compToks it0 ++ andTailToks items) = .ok node ∧
        parseNode fvc node =
          .ok (.logicalOperator .land (AstList.ofList ((it0 :: items).map compAst)))) ∧
      (∃ node, parseExprToks (compToks it0 ++ orTailToks items) = .ok node ∧
        parseNode fvc node =
          .ok (.logicalOperator .lor (AstList.ofList ((it0 :: items).map compAst))))) ∧
    (build "a eq 1 and b eq 2 and c eq 3" testRegistry =
        .ok (.logicalOperator .land (.ofList
          [.comparison .eq "a" (.intVal 1), .comparison .eq "b" (.intVal 2),
           .comparison .eq "c" (.intVal 3)])) ∧
      build "a eq 1 or b eq 2 or c eq 3" testRegistry =
        .ok (.logicalOperator .lor (.ofList
          [.comparison .eq "a" (.intVal 1), .comparison .eq "b" (.intVal 2),
           .comparison .eq "c" (.intVal 3)]))) := by
  refine ⟨⟨?_, ?_⟩, by decide, by decide⟩
  · refine ⟨mkBoolOp true (compNode it0) (items.map compNode),
      parseExprToks_andChain it0 items, ?_⟩
    cases items with
    | nil => exact absurd h2 (by decide)
    | cons a rest =>
      exact parseNode_boolOp fvc true
        (PyExprList.ofList ((it0 :: a :: rest).map compNode)) (exprPos (compNode it0)) _
        (parseNodeList_chain (it0 :: a :: rest) fvc hreg)
  · refine ⟨mkBoolOp false (compNode it0) (items.map compNode),
      parseExprToks_orChain it0 items, ?_⟩
    cases items with
    | nil => exact absurd h2 (by decide)
    | cons a rest =>
      exact parseNode_boolOp fvc false
        (PyExprList.ofList ((it0 :: a :: rest).map compNode)) (exprPos (compNode it0)) _
        (parseNodeList_chain (it0 :: a :: rest) fvc hreg)

theorem c5_witness :
    build "a eq 1 and b eq 2 and c eq 3" testRegistry =
      .ok (.logicalOperator .land (.ofList
        [.comparison .eq "a" (.intVal 1), .comparison .eq "b" (.intVal 2),
         .comparison .eq "c" (.intVal 3)])) :=
  (c5_same_connective_chain_flattens ("a", .eq, 1) [("b", .eq, 2), ("c", .eq, 3)]
    (by decide)
    [("a", identityConverter), ("b", identityConverter), ("c", identityConverter)]
    (by intro it hit; fin_cases hit <;> rfl)).2.1

/-! ### String-literal values receive the normalized text (C2) -/

theorem relSym_fst_none (z : Char) (hz : z ≠ 'e' ∧ z ≠ 'n' ∧ z ≠ 'g' ∧ z ≠ 'l')
    (b : Char) : relSym z b = none := by
  unfold relSym
  split_ifs with h1 h2 h3 h4 h5 h6
  · exact absurd h1.1 hz.1
  · exact absurd h2.1 hz.2.1
  · exact absurd h3.1 hz.2.2.1
  · exact absurd h4.1 hz.2.2.2
  · exact absurd h5.1 hz.2.2.1
  · exact absurd h6.1 hz.2.2.2
  · rfl

theorem relSym_snd_none (z : Char) (hz : z ≠ 'q' ∧ z ≠ 'e' ∧ z ≠ 't')
    (a : Char) : relSym a z = none := by
  unfold relSym
  split_ifs with h1 h2 h3 h4 h5 h6
  · exact absurd h1.2 hz.1
  · exact absurd h2.2 hz.2.1
  · exact absurd h3.2 hz.2.2
  · exact absurd h4.2 hz.2.2
  · exact absurd h5.2 hz.2.1
  · exact absurd h6.2 hz.2.1
  · rfl

/-- Appending one word-boundary character that never completes a
keyword commutes with the substitution scan. -/
theorem substAux_append_nonword (z : Char) (hz1 : ∀ a, relSym a z = none)
    (hz2 : isWordChar z = false) (w : Bool) (t : List Char) :
    substAux w (t ++ [z]) = substAux w t ++ [z] := by
  induction w, t using substAux.induct with
  | case1 x =>
    show substAux x [z] = [z]
    rfl
  | case2 x a =>
    show (match relSym a z with
      | some (x2, y2) =>
        if x = false ∧ ((([] : List Char).head?.map isWordChar).getD false) = false then
          x2 :: y2 :: substAux (isWordChar z) []
        else a :: substAux (isWordChar a) [z]
      | none => a :: substAux (isWordChar a) [z]) = [a, z]
    rw [hz1 a]
    rfl
  | case3 prevWord a b rest2 x y hr hcond ih =>
    have hhead : (((rest2 ++ [z]).head?.map isWordChar).getD false) =
        ((rest2.head?.map isWordChar).getD false) := by
      cases rest2 with
      | nil => simp [hz2]
      | cons u r => rfl
    show (match relSym a b with
      | some (x2, y2) =>
        if prevWord = false ∧ (((rest2 ++ [z]).head?.map isWordChar).getD false) = false then
          x2 :: y2 :: substAux (isWordChar b) (rest2 ++ [z])
        else a :: substAux (isWordChar a) (b :: (rest2 ++ [z]))
      | none => a :: substAux (isWordChar a) (b :: (rest2 ++ [z]))) = _
    rw [hr]
    simp only []
    rw [hhead, if_pos hcond, ih]
    show x :: y :: (substAux (isWordChar b) rest2 ++ [z]) =
      (match relSym a b with
       | some (x2, y2) =>
         if prevWord = false ∧ ((rest2.head?.map isWordChar).getD false) = false then
           x2 :: y2 :: substAux (isWordChar b) rest2
         else a :: substAux (isWordChar a) (b :: rest2)
       | none => a :: substAux (isWordChar a) (b :: rest2)) ++ [z]
    rw [hr]
    simp only []
    rw [if_pos hcond]
    rfl
  | case4 prevWord a b rest2 x y hr hcond ih =>
    have hhead : (((rest2 ++ [z]).head?.map isWordChar).getD false) =
        ((rest2.head?.map isWordChar).getD false) := by
      cases rest2 with
      | nil => simp [hz2]
      | cons u r => rfl
    show (match relSym a b with
      | some (x2, y2) =>
        if prevWord = false ∧ (((rest2 ++ [z]).head?.map isWordChar).getD false) = false then
          x2 :: y2 :: substAux (isWordChar b) (rest2 ++ [z])
        else a :: substAux (isWordChar a) (b :: (rest2 ++ [z]))
      | none => a :: substAux (isWordChar a) (b :: (rest2 ++ [z]))) = _
    rw [hr]
    simp only []
    rw [hhead, if_neg hcond]
    show a :: substAux (isWordChar a) ((b :: rest2) ++ [z]) = _
    rw [ih]
    show a :: (substAux (isWordChar a) (b :: rest2) ++ [z]) =
      (match relSym a b with
       | some (x2, y2) =>
         if prevWord = false ∧ ((rest2.head?.map isWordChar).getD false) = false then
           x2 :: y2 :: substAux (isWordChar b) rest2
         else a :: substAux (isWordChar a) (b :: rest2)
       | none => a :: substAux (isWordChar a) (b :: rest2)) ++ [z]
    rw [hr]
    simp only []
    rw [if_neg hcond]
    rfl
  | case5 prevWord a b rest2 hr ih =>
    show (match relSym a b with
      | some (x2, y2) =>
        if prevWord = false ∧ (((rest2 ++ [z]).head?.map isWordChar).getD false) = false then
          x2 :: y2 :: substAux (isWordChar b) (rest2 ++ [z])
        else a :: substAux (isWordChar a) (b :: (rest2 ++ [z]))
      | none => a :: substAux (isWordChar a) (b :: (rest2 ++ [z]))) = _
    rw [hr]
    simp only []
    show a :: substAux (isWordChar a) ((b :: rest2) ++ [z]) = _
    rw [ih]
    show a :: (substAux (isWordChar a) (b :: rest2) ++ [z]) =
      (match relSym a b with
       | some (x2, y2) =>
         if prevWord = false ∧ ((rest2.head?.map isWordChar).getD false) = false then
           x2 :: y2 :: substAux (isWordChar b) rest2
         else a :: substAux (isWordChar a) (b :: rest2)
       | none => a :: substAux (isWordChar a) (b :: rest2)) ++ [z]
    rw [hr]
    simp only []
    rfl

/-- Prepending one word-boundary character that never starts a keyword
commutes with the substitution scan (and resets the word state). -/
theorem substAux_cons_nonword (z : Char) (hz1 : ∀ b, relSym z b = none)
    (hz2 : isWordChar z = false) (w : Bool) (t : List Char) :
    substAux w (z :: t) = z :: substAux false t := by
  cases t with
  | nil => rfl
  | cons b r =>
    show (match relSym z b with
      | some (x2, y2) =>
        if w = false ∧ ((r.head?.map isWordChar).getD false) = false then
          x2 :: y2 :: substAux (isWordChar b) r
        else z :: substAux (isWordChar z) (b :: r)
      | none => z :: substAux (isWordChar z) (b :: r)) = _
    rw [hz1 b]
    simp only []
    rw [hz2]

theorem isWordChar_quote : isWordChar '\x27' = false := by decide

theorem relSym_fst_quote (b : Char) : relSym '\x27' b = none :=
  relSym_fst_none '\x27' (by refine ⟨?_, ?_, ?_, ?_⟩ <;> decide) b

theorem relSym_snd_quote (a : Char) : relSym a '\x27' = none :=
  relSym_snd_none '\x27' (by refine ⟨?_, ?_, ?_⟩ <;> decide) a

/-- Normalizing `x eq '…'` lower-cases and keyword-substitutes the
quoted text in place (the quotes are word boundaries, so substitution
does not cross them). -/
theorem queryToPythonExpression_strlit (s : String) :
    queryToPythonExpression ("x eq \x27" ++ s ++ "\x27") =
      "x == \x27" ++ substRel (pyLower s) ++ "\x27" := by
  show (⟨substAux false (List.map pyLowerChar
      (("x eq \x27".data ++ s.data) ++ "\x27".data))⟩ : String) = _
  rw [List.map_append, List.map_append]
  show (⟨substAux false (('x' :: ' ' :: 'e' :: 'q' :: ' ' :: '\x27' :: [] : List Char) ++
      (List.map pyLowerChar s.data ++ ['\x27']))⟩ : String) = _
  show (⟨'x' :: ' ' :: '=' :: '=' :: ' ' :: substAux false
      ('\x27' :: (List.map pyLowerChar s.data ++ ['\x27']))⟩ : String) = _
  rw [substAux_cons_nonword '\x27' relSym_fst_quote isWordChar_quote,
    substAux_append_nonword '\x27' relSym_snd_quote isWordChar_quote]
  rfl

/-- `x eq '…'` has no leading or trailing whitespace, so `strip` leaves
it unchanged. -/
theorem pyStrip_sandwich (a z : Char) (m : List Char) (ha : isPySpace a = false)
    (hz : isPySpace z = false) :
    pyStrip ⟨a :: (m ++ [z])⟩ = ⟨a :: (m ++ [z])⟩ := by
  show (⟨(((a :: (m ++ [z])).dropWhile isPySpace).reverse.dropWhile
      isPySpace).reverse⟩ : String) = _
  rw [List.dropWhile_cons, if_neg (by rw [ha]; exact Bool.false_ne_true)]
  have h1 : (a :: (m ++ [z])).reverse = z :: (m.reverse ++ [a]) := by
    rw [List.reverse_cons, List.reverse_append]
    simp
  rw [h1, List.dropWhile_cons, if_neg (by rw [hz]; exact Bool.false_ne_true), ← h1,
    List.reverse_reverse]

theorem pyStrip_strlit (s : String) :
    pyStrip ("x eq \x27" ++ s ++ "\x27") = "x eq \x27" ++ s ++ "\x27" :=
  pyStrip_sandwich 'x' '\x27' (" eq \x27".data ++ s.data) (by decide) (by decide)

theorem scanStr_clean : ∀ (l : List Char), (∀ c ∈ l, c ≠ '\x27' ∧ c ≠ '\n') →
    scanStr '\x27' (l ++ ['\x27']) = some (l, [])
  | [], _ => rfl
  | c :: rest, h => by
    have hc := h c (List.mem_cons_self _ _)
    show (if c = '\x27' then some (([] : List Char), rest ++ ['\x27'])
      else if c = '\n' then none
      else match scanStr '\x27' (rest ++ ['\x27']) with
        | none => none
        | some (content, r2) => some (c :: content, r2)) = some (c :: rest, [])
    rw [if_neg hc.1, if_neg hc.2,
      scanStr_clean rest (fun x hx => h x (List.mem_cons_of_mem _ hx))]

/-- Lexing `x == '…'` when the quoted text contains no quote and no
newline: a name, the `==` operator, and one string token holding the
text verbatim. -/
theorem lexAux_strlit (f : Nat) (l : List Char)
    (h : ∀ c ∈ l, c ≠ '\x27' ∧ c ≠ '\n') :
    lexAux (f + (l.length + 15))
        ('x' :: ' ' :: '=' :: '=' :: ' ' :: '\x27' :: (l ++ ['\x27'])) 1 0 =
      .ok [.nameTok "x" ⟨1, 0⟩, .cmpTok .eq ⟨1, 2⟩, .strTok ⟨l⟩ ⟨1, 5⟩] := by
  show ((match scanStr '\x27' (l ++ ['\x27']) with
      | none => Except.error (lexErr "EOL while scanning string literal" 1 6)
      | some (content, rest) =>
        (lexAux (f + (l.length + 10)) rest 1 (5 + content.length + 2)).map
          (fun ts => Tok.strTok ⟨content⟩ ⟨1, 5⟩ :: ts)).map
      (fun ts => Tok.cmpTok .eq ⟨1, 2⟩ :: ts)).map
      (fun ts => Tok.nameTok "x" ⟨1, 0⟩ :: ts) = _
  rw [scanStr_clean l h]
  rfl

theorem pyParse_ok (fn src : String) (ts : List Tok) (e : PyExpr)
    (h1 : lexAux (src.length + 8) src.data 1 0 = .ok ts)
    (h2 : parseExprToks ts = .ok e) : pyParse fn src = .ok e := by
  unfold pyParse
  rw [h1]
  simp only []
  rw [h2]

/-- Parsing the normalized `x == '…'`: one `Compare` of the name `x`
against the string literal. -/
theorem pyParse_strlit (t : String) (h : ∀ c ∈ t.data, c ≠ '\x27' ∧ c ≠ '\n') :
    pyParse PSEUDO_FILENAME ("x == \x27" ++ t ++ "\x27") =
      .ok (.compare (.name "x" ⟨1, 0⟩) [.eq]
        (.cons (.strLit t ⟨1, 5⟩) .nil) ⟨1, 0⟩) := by
  apply pyParse_ok _ _ [.nameTok "x" ⟨1, 0⟩, .cmpTok .eq ⟨1, 2⟩, .strTok t ⟨1, 5⟩]
  · have hlen : ("x == \x27" ++ t ++ "\x27").length + 8 = 0 + (t.data.length + 15) := by
      rw [String.length_append, String.length_append]
      show 6 + t.data.length + 1 + 8 = 0 + (t.data.length + 15)
      omega
    rw [hlen]
    exact lexAux_strlit 0 t.data h
  · rfl

/-- **C2 as amended**: for quoted text free of backslashes (on which
`ast.parse`\x27s escape processing is the identity — escape sequences
are processed by the underlying parser and are outside this guarantee),
the raw value handed to the converter is the *normalized* text between
the quotes: the original text lower-cased with whole-word relational
keywords replaced by their symbolic forms, taken verbatim otherwise. -/
theorem c2_string_value_is_normalized_text (s : String)
    (h : ∀ c ∈ s.data, c ≠ '\x27' ∧ c ≠ '\n' ∧ c ≠ '\\') :
    build ("x eq \x27" ++ s ++ "\x27") [("x", identityConverter)] =
      .ok (.comparison .eq "x" (.str (substRel (pyLower s)))) := by
  have h2 : ∀ c ∈ s.data, c ≠ '\x27' ∧ c ≠ '\n' :=
    fun c hc => ⟨(h c hc).1, (h c hc).2.1⟩
  have hnorm : ∀ c ∈ (substRel (pyLower s)).data, c ≠ '\x27' ∧ c ≠ '\n' := by
    intro c hc
    rw [data_substRel, data_pyLower] at hc
    rcases substAux_chars _ _ c hc with hm | hs
    · rw [List.mem_map] at hm
      obtain ⟨d, hd, rfl⟩ := hm
      have hdc := h2 d hd
      constructor
      · intro he
        rw [char_eq_iff_toNat, toNat_pyLowerChar,
          show ('\x27').toNat = 39 from rfl] at he
        have hd39 : d.toNat = 39 := by split at he <;> omega
        exact hdc.1 ((char_eq_iff_toNat d '\x27').2 (by rw [hd39]; rfl))
      · intro he
        rw [char_eq_iff_toNat, toNat_pyLowerChar,
          show ('\n').toNat = 10 from rfl] at he
        have hd10 : d.toNat = 10 := by split at he <;> omega
        exact hdc.2 ((char_eq_iff_toNat d '\n').2 (by rw [hd10]; rfl))
    · rcases hs with rfl | rfl | rfl | rfl | rfl <;> exact ⟨by decide, by decide⟩
  unfold build
  rw [pyStrip_strlit s]
  unfold makeAst
  rw [queryToPythonExpression_strlit s, pyParse_strlit (substRel (pyLower s)) hnorm]
  rfl

theorem c2_witness :
    build "x eq \x27GT\x27" [("x", identityConverter)] =
      .ok (.comparison .eq "x" (.str (substRel (pyLower "GT")))) ∧
    substRel (pyLower "GT") = " >" :=
  ⟨c2_string_value_is_normalized_text "GT" (by decide), by decide⟩

/-! ### Redundant parentheses are inert (C8): extension and monotonicity -/

theorem okPair {e : Type} {a : Type} {b : Type} {x y : a} {u v : b}
    (h : (Except.ok (x, u) : Except e (a × b)) = .ok (y, v)) : x = y ∧ u = v := by
  injection h with h2
  exact ⟨congrArg Prod.fst h2, congrArg Prod.snd h2⟩

/-- An empty token list never parses to a value. -/
theorem parseOr_nil (f : Nat) (e : PyExpr) (rest : List Tok) :
    parseOr f [] ≠ .ok (e, rest) := by
  match f with
  | 0 => exact fun h => nomatch h
  | 1 => exact fun h => nomatch h
  | 2 => exact fun h => nomatch h
  | 3 => exact fun h => nomatch h
  | 4 => exact fun h => nomatch h
  | g + 5 => exact fun h => nomatch h

/-- Extending the input with a trailing suffix headed by `)` does not
change a successful parse: every recursion level stops in front of the
`)` exactly where it stopped at the end of input before. -/
theorem parser_extend (p2 : Pos) (tl : List Tok) (fuel : Nat) :
    (∀ ts e rest, parseOr fuel ts = .ok (e, rest) →
        parseOr fuel (ts ++ .rparenTok p2 :: tl) = .ok (e, rest ++ .rparenTok p2 :: tl))
    ∧ (∀ first acc ts e rest, parseOrTail fuel first acc ts = .ok (e, rest) →
        parseOrTail fuel first acc (ts ++ .rparenTok p2 :: tl) =
          .ok (e, rest ++ .rparenTok p2 :: tl))
    ∧ (∀ ts e rest, parseAnd fuel ts = .ok (e, rest) →
        parseAnd fuel (ts ++ .rparenTok p2 :: tl) = .ok (e, rest ++ .rparenTok p2 :: tl))
    ∧ (∀ first acc ts e rest, parseAndTail fuel first acc ts = .ok (e, rest) →
        parseAndTail fuel first acc (ts ++ .rparenTok p2 :: tl) =
          .ok (e, rest ++ .rparenTok p2 :: tl))
    ∧ (∀ ts e rest, parseUnary fuel ts = .ok (e, rest) →
        parseUnary fuel (ts ++ .rparenTok p2 :: tl) = .ok (e, rest ++ .rparenTok p2 :: tl))
    ∧ (∀ ts e rest, parseCmpExpr fuel ts = .ok (e, rest) →
        parseCmpExpr fuel (ts ++ .rparenTok p2 :: tl) = .ok (e, rest ++ .rparenTok p2 :: tl))
    ∧ (∀ left ops comps ts e rest, parseCmpTail fuel left ops comps ts = .ok (e, rest) →
        parseCmpTail fuel left ops comps (ts ++ .rparenTok p2 :: tl) =
          .ok (e, rest ++ .rparenTok p2 :: tl))
    ∧ (∀ ts e rest, parseOperand fuel ts = .ok (e, rest) →
        parseOperand fuel (ts ++ .rparenTok p2 :: tl) = .ok (e, rest ++ .rparenTok p2 :: tl)) := by
  induction fuel with
  | zero =>
    refine ⟨?_, ?_, ?_, ?_, ?_, ?_, ?_, ?_⟩ <;> (intros; rename_i h; exact nomatch h)
  | succ n ih =>
    obtain ⟨ihOr, ihOrT, ihAnd, ihAndT, ihU, ihC, ihCT, ihOp⟩ := ih
    have hOp : ∀ ts e rest, parseOperand (n + 1) ts = .ok (e, rest) →
        parseOperand (n + 1) (ts ++ .rparenTok p2 :: tl) =
          .ok (e, rest ++ .rparenTok p2 :: tl) := by
      intro ts e rest h
      cases ts with
      | nil => exact nomatch h
      | cons t ts2 =>
        cases t with
        | minusTok p =>
          simp only [List.cons_append]
          rw [parseOperand.eq_def] at h ⊢
          simp only [] at h ⊢
          cases ha : parseOperand n ts2 with
          | error er => rw [ha] at h; exact nomatch h
          | ok pr =>
            obtain ⟨e2, r2⟩ := pr
            rw [ha] at h
            simp only [] at h
            obtain ⟨rfl, rfl⟩ := okPair h
            rw [ihOp ts2 e2 r2 ha]
        | intTok v p =>
          obtain ⟨rfl, rfl⟩ := okPair h
          rfl
        | floatTok v p =>
          obtain ⟨rfl, rfl⟩ := okPair h
          rfl
        | strTok s p =>
          obtain ⟨rfl, rfl⟩ := okPair h
          rfl
        | nameTok s p =>
          obtain ⟨rfl, rfl⟩ := okPair h
          rfl
        | cmpTok o p => exact nomatch h
        | andTok p => exact nomatch h
        | orTok p => exact nomatch h
        | notTok p => exact nomatch h
        | rparenTok p => exact nomatch h
        | lparenTok p =>
          cases ts2 with
          | nil =>
            rw [parseOperand.eq_def] at h
            simp only [] at h
            cases hI : parseOr n ([] : List Tok) with
            | error er => rw [hI] at h; exact nomatch h
            | ok pr =>
              obtain ⟨e2, r2⟩ := pr
              exact absurd hI (parseOr_nil n e2 r2)
          | cons t2 ts3 =>
            cases t2 with
            | rparenTok p3 =>
              obtain ⟨rfl, rfl⟩ := okPair h
              rfl
            | nameTok s2 p3 =>
              simp only [List.cons_append]
              rw [parseOperand.eq_def] at h ⊢
              simp only [] at h ⊢
              cases hI : parseOr n (Tok.nameTok s2 p3 :: ts3) with
              | error er => rw [hI] at h; exact nomatch h
              | ok pr =>
                obtain ⟨e2, r2⟩ := pr
                rw [hI] at h
                have hI2 := ihOr _ e2 r2 hI
                simp only [List.cons_append] at hI2
                rw [hI2]
                cases r2 with
                | nil => exact nomatch h
                | cons t4 r3 =>
                  cases t4 <;>
                    first
                      | (obtain ⟨rfl, rfl⟩ := okPair h; rfl)
                      | exact nomatch h
            | intTok v2 p3 =>
              simp only [List.cons_append]
              rw [parseOperand.eq_def] at h ⊢
              simp only [] at h ⊢
              cases hI : parseOr n (Tok.intTok v2 p3 :: ts3) with
              | error er => rw [hI] at h; exact nomatch h
              | ok pr =>
                obtain ⟨e2, r2⟩ := pr
                rw [hI] at h
                have hI2 := ihOr _ e2 r2 hI
                simp only [List.cons_append] at hI2
                rw [hI2]
                cases r2 with
                | nil => exact nomatch h
                | cons t4 r3 =>
                  cases t4 <;>
                    first
                      | (obtain ⟨rfl, rfl⟩ := okPair h; rfl)
                      | exact nomatch h
            | floatTok v2 p3 =>
              simp only [List.cons_append]
              rw [parseOperand.eq_def] at h ⊢
              simp only [] at h ⊢
              cases hI : parseOr n (Tok.floatTok v2 p3 :: ts3) with
              | error er => rw [hI] at h; exact nomatch h
              | ok pr =>
                obtain ⟨e2, r2⟩ := pr
                rw [hI] at h
                have hI2 := ihOr _ e2 r2 hI
                simp only [List.cons_append] at hI2
                rw [hI2]
                cases r2 with
                | nil => exact nomatch h
                | cons t4 r3 =>
                  cases t4 <;>
                    first
                      | (obtain ⟨rfl, rfl⟩ := okPair h; rfl)
                      | exact nomatch h
            | strTok s2 p3 =>
              simp only [List.cons_append]
              rw [parseOperand.eq_def] at h ⊢
              simp only [] at h ⊢
              cases hI : parseOr n (Tok.strTok s2 p3 :: ts3) with
              | error er => rw [hI] at h; exact nomatch h
              | ok pr =>
                obtain ⟨e2, r2⟩ := pr
                rw [hI] at h
                have hI2 := ihOr _ e2 r2 hI
                simp only [List.cons_append] at hI2
                rw [hI2]
                cases r2 with
                | nil => exact nomatch h
                | cons t4 r3 =>
                  cases t4 <;>
                    first
                      | (obtain ⟨rfl, rfl⟩ := okPair h; rfl)
                      | exact nomatch h
            | cmpTok o2 p3 =>
              simp only [List.cons_append]
              rw [parseOperand.eq_def] at h ⊢
              simp only [] at h ⊢
              cases hI : parseOr n (Tok.cmpTok o2 p3 :: ts3) with
              | error er => rw [hI] at h; exact nomatch h
              | ok pr =>
                obtain ⟨e2, r2⟩ := pr
                rw [hI] at h
                have hI2 := ihOr _ e2 r2 hI
                simp only [List.cons_append] at hI2
                rw [hI2]
                cases r2 with
                | nil => exact nomatch h
                | cons t4 r3 =>
                  cases t4 <;>
                    first
                      | (obtain ⟨rfl, rfl⟩ := okPair h; rfl)
                      | exact nomatch h
            | andTok p3 =>
              simp only [List.cons_append]
              rw [parseOperand.eq_def] at h ⊢
              simp only [] at h ⊢
              cases hI : parseOr n (Tok.andTok p3 :: ts3) with
              | error er => rw [hI] at h; exact nomatch h
              | ok pr =>
                obtain ⟨e2, r2⟩ := pr
                rw [hI] at h
                have hI2 := ihOr _ e2 r2 hI
                simp only [List.cons_append] at hI2
                rw [hI2]
                cases r2 with
                | nil => exact nomatch h
                | cons t4 r3 =>
                  cases t4 <;>
                    first
                      | (obtain ⟨rfl, rfl⟩ := okPair h; rfl)
                      | exact nomatch h
            | orTok p3 =>
              simp only [List.cons_append]
              rw [parseOperand.eq_def] at h ⊢
              simp only [] at h ⊢
              cases hI : parseOr n (Tok.orTok p3 :: ts3) with
              | error er => rw [hI] at h; exact nomatch h
              | ok pr =>
                obtain ⟨e2, r2⟩ := pr
                rw [hI] at h
                have hI2 := ihOr _ e2 r2 hI
                simp only [List.cons_append] at hI2
                rw [hI2]
                cases r2 with
                | nil => exact nomatch h
                | cons t4 r3 =>
                  cases t4 <;>
                    first
                      | (obtain ⟨rfl, rfl⟩ := okPair h; rfl)
                      | exact nomatch h
            | notTok p3 =>
              simp only [List.cons_append]
              rw [parseOperand.eq_def] at h ⊢
              simp only [] at h ⊢
              cases hI : parseOr n (Tok.notTok p3 :: ts3) with
              | error er => rw [hI] at h; exact nomatch h
              | ok pr =>
                obtain ⟨e2, r2⟩ := pr
                rw [hI] at h
                have hI2 := ihOr _ e2 r2 hI
                simp only [List.cons_append] at hI2
                rw [hI2]
                cases r2 with
                | nil => exact nomatch h
                | cons t4 r3 =>
                  cases t4 <;>
                    first
                      | (obtain ⟨rfl, rfl⟩ := okPair h; rfl)
                      | exact nomatch h
            | minusTok p3 =>
              simp only [List.cons_append]
              rw [parseOperand.eq_def] at h ⊢
              simp only [] at h ⊢
              cases hI : parseOr n (Tok.minusTok p3 :: ts3) with
              | error er => rw [hI] at h; exact nomatch h
              | ok pr =>
                obtain ⟨e2, r2⟩ := pr
                rw [hI] at h
                have hI2 := ihOr _ e2 r2 hI
                simp only [List.cons_append] at hI2
                rw [hI2]
                cases r2 with
                | nil => exact nomatch h
                | cons t4 r3 =>
                  cases t4 <;>
                    first
                      | (obtain ⟨rfl, rfl⟩ := okPair h; rfl)
                      | exact nomatch h
            | lparenTok p3 =>
              simp only [List.cons_append]
              rw [parseOperand.eq_def] at h ⊢
              simp only [] at h ⊢
              cases hI : parseOr n (Tok.lparenTok p3 :: ts3) with
              | error er => rw [hI] at h; exact nomatch h
              | ok pr =>
                obtain ⟨e2, r2⟩ := pr
                rw [hI] at h
                have hI2 := ihOr _ e2 r2 hI
                simp only [List.cons_append] at hI2
                rw [hI2]
                cases r2 with
                | nil => exact nomatch h
                | cons t4 r3 =>
                  cases t4 <;>
                    first
                      | (obtain ⟨rfl, rfl⟩ := okPair h; rfl)
                      | exact nomatch h
    have hCT : ∀ left ops comps ts e rest, parseCmpTail (n + 1) left ops comps ts = .ok (e, rest) →
        parseCmpTail (n + 1) left ops comps (ts ++ .rparenTok p2 :: tl) =
          .ok (e, rest ++ .rparenTok p2 :: tl) := by
      intro left ops comps ts e rest h
      cases ts with
      | nil =>
        obtain ⟨rfl, rfl⟩ := okPair h
        rfl
      | cons t ts2 =>
        cases t with
        | cmpTok o p =>
          simp only [List.cons_append]
          rw [parseCmpTail.eq_def] at h ⊢
          simp only [] at h ⊢
          cases ha : parseOperand n ts2 with
          | error er => rw [ha] at h; exact nomatch h
          | ok pr =>
            obtain ⟨c, r2⟩ := pr
            rw [ha] at h
            simp only [] at h
            rw [ihOp ts2 c r2 ha]
            simp only []
            exact ihCT left (ops ++ [o]) (comps ++ [c]) r2 e rest h
        | nameTok s p =>
          obtain ⟨rfl, rfl⟩ := okPair h
          rfl
        | intTok v p =>
          obtain ⟨rfl, rfl⟩ := okPair h
          rfl
        | floatTok v p =>
          obtain ⟨rfl, rfl⟩ := okPair h
          rfl
        | strTok s p =>
          obtain ⟨rfl, rfl⟩ := okPair h
          rfl
        | andTok p =>
          obtain ⟨rfl, rfl⟩ := okPair h
          rfl
        | orTok p =>
          obtain ⟨rfl, rfl⟩ := okPair h
          rfl
        | notTok p =>
          obtain ⟨rfl, rfl⟩ := okPair h
          rfl
        | minusTok p =>
          obtain ⟨rfl, rfl⟩ := okPair h
          rfl
        | lparenTok p =>
          obtain ⟨rfl, rfl⟩ := okPair h
          rfl
        | rparenTok p =>
          obtain ⟨rfl, rfl⟩ := okPair h
          rfl
    have hC : ∀ ts e rest, parseCmpExpr (n + 1) ts = .ok (e, rest) →
        parseCmpExpr (n + 1) (ts ++ .rparenTok p2 :: tl) =
          .ok (e, rest ++ .rparenTok p2 :: tl) := by
      intro ts e rest h
      rw [parseCmpExpr.eq_def] at h ⊢
      simp only [] at h ⊢
      cases ha : parseOperand n ts with
      | error er => rw [ha] at h; exact nomatch h
      | ok pr =>
        obtain ⟨left, r2⟩ := pr
        rw [ha] at h
        simp only [] at h
        rw [ihOp ts left r2 ha]
        simp only []
        exact ihCT left [] [] r2 e rest h
    have hU : ∀ ts e rest, parseUnary (n + 1) ts = .ok (e, rest) →
        parseUnary (n + 1) (ts ++ .rparenTok p2 :: tl) =
          .ok (e, rest ++ .rparenTok p2 :: tl) := by
      intro ts e rest h
      cases ts with
      | nil => exact ihC [] e rest h
      | cons t ts2 =>
        cases t with
        | notTok p =>
          simp only [List.cons_append]
          rw [parseUnary.eq_def] at h ⊢
          simp only [] at h ⊢
          cases ha : parseUnary n ts2 with
          | error er => rw [ha] at h; exact nomatch h
          | ok pr =>
            obtain ⟨e2, r2⟩ := pr
            rw [ha] at h
            simp only [] at h
            obtain ⟨rfl, rfl⟩ := okPair h
            rw [ihU ts2 e2 r2 ha]
        | nameTok s p => exact ihC _ e rest h
        | intTok v p => exact ihC _ e rest h
        | floatTok v p => exact ihC _ e rest h
        | strTok s p => exact ihC _ e rest h
        | cmpTok o p => exact ihC _ e rest h
        | andTok p => exact ihC _ e rest h
        | orTok p => exact ihC _ e rest h
        | minusTok p => exact ihC _ e rest h
        | lparenTok p => exact ihC _ e rest h
        | rparenTok p => exact ihC _ e rest h
    have hAndT : ∀ first acc ts e rest, parseAndTail (n + 1) first acc ts = .ok (e, rest) →
        parseAndTail (n + 1) first acc (ts ++ .rparenTok p2 :: tl) =
          .ok (e, rest ++ .rparenTok p2 :: tl) := by
      intro first acc ts e rest h
      cases ts with
      | nil =>
        obtain ⟨rfl, rfl⟩ := okPair h
        rfl
      | cons t ts2 =>
        cases t with
        | andTok p =>
          simp only [List.cons_append]
          rw [parseAndTail.eq_def] at h ⊢
          simp only [] at h ⊢
          cases ha : parseUnary n ts2 with
          | error er => rw [ha] at h; exact nomatch h
          | ok pr =>
            obtain ⟨e2, r2⟩ := pr
            rw [ha] at h
            simp only [] at h
            rw [ihU ts2 e2 r2 ha]
            simp only []
            exact ihAndT first (acc ++ [e2]) r2 e rest h
        | nameTok s p =>
          obtain ⟨rfl, rfl⟩ := okPair h
          rfl
        | intTok v p =>
          obtain ⟨rfl, rfl⟩ := okPair h
          rfl
        | floatTok v p =>
          obtain ⟨rfl, rfl⟩ := okPair h
          rfl
        | strTok s p =>
          obtain ⟨rfl, rfl⟩ := okPair h
          rfl
        | cmpTok o p =>
          obtain ⟨rfl, rfl⟩ := okPair h
          rfl
        | orTok p =>
          obtain ⟨rfl, rfl⟩ := okPair h
          rfl
        | notTok p =>
          obtain ⟨rfl, rfl⟩ := okPair h
          rfl
        | minusTok p =>
          obtain ⟨rfl, rfl⟩ := okPair h
          rfl
        | lparenTok p =>
          obtain ⟨rfl, rfl⟩ := okPair h
          rfl
        | rparenTok p =>
          obtain ⟨rfl, rfl⟩ := okPair h
          rfl
    have hAnd : ∀ ts e rest, parseAnd (n + 1) ts = .ok (e, rest) →
        parseAnd (n + 1) (ts ++ .rparenTok p2 :: tl) = .ok (e, rest ++ .rparenTok p2 :: tl) := by
      intro ts e rest h
      rw [parseAnd.eq_def] at h ⊢
      simp only [] at h ⊢
      cases ha : parseUnary n ts with
      | error er => rw [ha] at h; exact nomatch h
      | ok pr =>
        obtain ⟨first, r2⟩ := pr
        rw [ha] at h
        simp only [] at h
        rw [ihU ts first r2 ha]
        simp only []
        exact ihAndT first [] r2 e rest h
    have hOrT_loc : ∀ first acc ts e rest, parseOrTail (n + 1) first acc ts = .ok (e, rest) →
        parseOrTail (n + 1) first acc (ts ++ .rparenTok p2 :: tl) =
          .ok (e, rest ++ .rparenTok p2 :: tl) := by
      intro first acc ts e rest h
      cases ts with
      | nil =>
        obtain ⟨rfl, rfl⟩ := okPair h
        rfl
      | cons t ts2 =>
        cases t with
        | orTok p =>
          simp only [List.cons_append]
          rw [parseOrTail.eq_def] at h ⊢
          simp only [] at h ⊢
          cases ha : parseAnd n ts2 with
          | error er => rw [ha] at h; exact nomatch h
          | ok pr =>
            obtain ⟨e2, r2⟩ := pr
            rw [ha] at h
            simp only [] at h
            rw [ihAnd ts2 e2 r2 ha]
            simp only []
            exact ihOrT first (acc ++ [e2]) r2 e rest h
        | nameTok s p =>
          obtain ⟨rfl, rfl⟩ := okPair h
          rfl
        | intTok v p =>
          obtain ⟨rfl, rfl⟩ := okPair h
          rfl
        | floatTok v p =>
          obtain ⟨rfl, rfl⟩ := okPair h
          rfl
        | strTok s p =>
          obtain ⟨rfl, rfl⟩ := okPair h
          rfl
        | cmpTok o p =>
          obtain ⟨rfl, rfl⟩ := okPair h
          rfl
        | andTok p =>
          obtain ⟨rfl, rfl⟩ := okPair h
          rfl
        | notTok p =>
          obtain ⟨rfl, rfl⟩ := okPair h
          rfl
        | minusTok p =>
          obtain ⟨rfl, rfl⟩ := okPair h
          rfl
        | lparenTok p =>
          obtain ⟨rfl, rfl⟩ := okPair h
          rfl
        | rparenTok p =>
          obtain ⟨rfl, rfl⟩ := okPair h
          rfl
    have hOr : ∀ ts e rest, parseOr (n + 1) ts = .ok (e, rest) →
        parseOr (n + 1) (ts ++ .rparenTok p2 :: tl) = .ok (e, rest ++ .rparenTok p2 :: tl) := by
      intro ts e rest h
      rw [parseOr.eq_def] at h ⊢
      simp only [] at h ⊢
      cases ha : parseAnd n ts with
      | error er => rw [ha] at h; exact nomatch h
      | ok pr =>
        obtain ⟨first, r2⟩ := pr
        rw [ha] at h
        simp only [] at h
        rw [ihAnd ts first r2 ha]
        simp only []
        exact ihOrT first [] r2 e rest h
    exact ⟨hOr, hOrT_loc, hAnd, hAndT, hU, hC, hCT, hOp⟩

/-- One extra unit of fuel never changes a successful parse. -/
theorem parser_mono (fuel : Nat) :
    (∀ ts e rest, parseOr fuel ts = .ok (e, rest) →
        parseOr (fuel + 1) ts = .ok (e, rest))
    ∧ (∀ first acc ts e rest, parseOrTail fuel first acc ts = .ok (e, rest) →
        parseOrTail (fuel + 1) first acc ts = .ok (e, rest))
    ∧ (∀ ts e rest, parseAnd fuel ts = .ok (e, rest) →
        parseAnd (fuel + 1) ts = .ok (e, rest))
    ∧ (∀ first acc ts e rest, parseAndTail fuel first acc ts = .ok (e, rest) →
        parseAndTail (fuel + 1) first acc ts = .ok (e, rest))
    ∧ (∀ ts e rest, parseUnary fuel ts = .ok (e, rest) →
        parseUnary (fuel + 1) ts = .ok (e, rest))
    ∧ (∀ ts e rest, parseCmpExpr fuel ts = .ok (e, rest) →
        parseCmpExpr (fuel + 1) ts = .ok (e, rest))
    ∧ (∀ left ops comps ts e rest, parseCmpTail fuel left ops comps ts = .ok (e, rest) →
        parseCmpTail (fuel + 1) left ops comps ts = .ok (e, rest))
    ∧ (∀ ts e rest, parseOperand fuel ts = .ok (e, rest) →
        parseOperand (fuel + 1) ts = .ok (e, rest)) := by
  induction fuel with
  | zero =>
    refine ⟨?_, ?_, ?_, ?_, ?_, ?_, ?_, ?_⟩ <;> (intros; rename_i h; exact nomatch h)
  | succ n ih =>
    obtain ⟨ihOr, ihOrT, ihAnd, ihAndT, ihU, ihC, ihCT, ihOp⟩ := ih
    have hOp : ∀ ts e rest, parseOperand (n + 1) ts = .ok (e, rest) →
        parseOperand (n + 2) ts = .ok (e, rest) := by
      intro ts e rest h
      cases ts with
      | nil => exact nomatch h
      | cons t ts2 =>
        cases t with
        | minusTok p =>
          rw [parseOperand.eq_def] at h ⊢
          simp only [] at h ⊢
          cases ha : parseOperand n ts2 with
          | error er => rw [ha] at h; exact nomatch h
          | ok pr =>
            obtain ⟨e2, r2⟩ := pr
            rw [ha] at h
            simp only [] at h
            obtain ⟨rfl, rfl⟩ := okPair h
            rw [ihOp ts2 e2 r2 ha]
        | intTok v p =>
          obtain ⟨rfl, rfl⟩ := okPair h
          rfl
        | floatTok v p =>
          obtain ⟨rfl, rfl⟩ := okPair h
          rfl
        | strTok s p =>
          obtain ⟨rfl, rfl⟩ := okPair h
          rfl
        | nameTok s p =>
          obtain ⟨rfl, rfl⟩ := okPair h
          rfl
        | cmpTok o p => exact nomatch h
        | andTok p => exact nomatch h
        | orTok p => exact nomatch h
        | notTok p => exact nomatch h
        | rparenTok p => exact nomatch h
        | lparenTok p =>
          cases ts2 with
          | nil =>
            rw [parseOperand.eq_def] at h
            simp only [] at h
            cases hI : parseOr n ([] : List Tok) with
            | error er => rw [hI] at h; exact nomatch h
            | ok pr =>
              obtain ⟨e2, r2⟩ := pr
              exact absurd hI (parseOr_nil n e2 r2)
          | cons t2 ts3 =>
            cases t2 with
            | rparenTok p3 =>
              obtain ⟨rfl, rfl⟩ := okPair h
              rfl
            | nameTok s2 p3 =>
              rw [parseOperand.eq_def] at h ⊢
              simp only [] at h ⊢
              cases hI : parseOr n (Tok.nameTok s2 p3 :: ts3) with
              | error er => rw [hI] at h; exact nomatch h
              | ok pr =>
                obtain ⟨e2, r2⟩ := pr
                rw [hI] at h
                rw [ihOr _ e2 r2 hI]
                cases r2 with
                | nil => exact nomatch h
                | cons t4 r3 =>
                  cases t4 <;>
                    first
                      | (obtain ⟨rfl, rfl⟩ := okPair h; rfl)
                      | exact nomatch h
            | intTok v2 p3 =>
              rw [parseOperand.eq_def] at h ⊢
              simp only [] at h ⊢
              cases hI : parseOr n (Tok.intTok v2 p3 :: ts3) with
              | error er => rw [hI] at h; exact nomatch h
              | ok pr =>
                obtain ⟨e2, r2⟩ := pr
                rw [hI] at h
                rw [ihOr _ e2 r2 hI]
                cases r2 with
                | nil => exact nomatch h
                | cons t4 r3 =>
                  cases t4 <;>
                    first
                      | (obtain ⟨rfl, rfl⟩ := okPair h; rfl)
                      | exact nomatch h
            | floatTok v2 p3 =>
              rw [parseOperand.eq_def] at h ⊢
              simp only [] at h ⊢
              cases hI : parseOr n (Tok.floatTok v2 p3 :: ts3) with
              | error er => rw [hI] at h; exact nomatch h
              | ok pr =>
                obtain ⟨e2, r2⟩ := pr
                rw [hI] at h
                rw [ihOr _ e2 r2 hI]
                cases r2 with
                | nil => exact nomatch h
                | cons t4 r3 =>
                  cases t4 <;>
                    first
                      | (obtain ⟨rfl, rfl⟩ := okPair h; rfl)
                      | exact nomatch h
            | strTok s2 p3 =>
              rw [parseOperand.eq_def] at h ⊢
              simp only [] at h ⊢
              cases hI : parseOr n (Tok.strTok s2 p3 :: ts3) with
              | error er => rw [hI] at h; exact nomatch h
              | ok pr =>
                obtain ⟨e2, r2⟩ := pr
                rw [hI] at h
                rw [ihOr _ e2 r2 hI]
                cases r2 with
                | nil => exact nomatch h
                | cons t4 r3 =>
                  cases t4 <;>
                    first
                      | (obtain ⟨rfl, rfl⟩ := okPair h; rfl)
                      | exact nomatch h
            | cmpTok o2 p3 =>
              rw [parseOperand.eq_def] at h ⊢
              simp only [] at h ⊢
              cases hI : parseOr n (Tok.cmpTok o2 p3 :: ts3) with
              | error er => rw [hI] at h; exact nomatch h
              | ok pr =>
                obtain ⟨e2, r2⟩ := pr
                rw [hI] at h
                rw [ihOr _ e2 r2 hI]
                cases r2 with
                | nil => exact nomatch h
                | cons t4 r3 =>
                  cases t4 <;>
                    first
                      | (obtain ⟨rfl, rfl⟩ := okPair h; rfl)
                      | exact nomatch h
            | andTok p3 =>
              rw [parseOperand.eq_def] at h ⊢
              simp only [] at h ⊢
              cases hI : parseOr n (Tok.andTok p3 :: ts3) with
              | error er => rw [hI] at h; exact nomatch h
              | ok pr =>
                obtain ⟨e2, r2⟩ := pr
                rw [hI] at h
                rw [ihOr _ e2 r2 hI]
                cases r2 with
                | nil => exact nomatch h
                | cons t4 r3 =>
                  cases t4 <;>
                    first
                      | (obtain ⟨rfl, rfl⟩ := okPair h; rfl)
                      | exact nomatch h
            | orTok p3 =>
              rw [parseOperand.eq_def] at h ⊢
              simp only [] at h ⊢
              cases hI : parseOr n (Tok.orTok p3 :: ts3) with
              | error er => rw [hI] at h; exact nomatch h
              | ok pr =>
                obtain ⟨e2, r2⟩ := pr
                rw [hI] at h
                rw [ihOr _ e2 r2 hI]
                cases r2 with
                | nil => exact nomatch h
                | cons t4 r3 =>
                  cases t4 <;>
                    first
                      | (obtain ⟨rfl, rfl⟩ := okPair h; rfl)
                      | exact nomatch h
            | notTok p3 =>
              rw [parseOperand.eq_def] at h ⊢
              simp only [] at h ⊢
              cases hI : parseOr n (Tok.notTok p3 :: ts3) with
              | error er => rw [hI] at h; exact nomatch h
              | ok pr =>
                obtain ⟨e2, r2⟩ := pr
                rw [hI] at h
                rw [ihOr _ e2 r2 hI]
                cases r2 with
                | nil => exact nomatch h
                | cons t4 r3 =>
                  cases t4 <;>
                    first
                      | (obtain ⟨rfl, rfl⟩ := okPair h; rfl)
                      | exact nomatch h
            | minusTok p3 =>
              rw [parseOperand.eq_def] at h ⊢
              simp only [] at h ⊢
              cases hI : parseOr n (Tok.minusTok p3 :: ts3) with
              | error er => rw [hI] at h; exact nomatch h
              | ok pr =>
                obtain ⟨e2, r2⟩ := pr
                rw [hI] at h
                rw [ihOr _ e2 r2 hI]
                cases r2 with
                | nil => exact nomatch h
                | cons t4 r3 =>
                  cases t4 <;>
                    first
                      | (obtain ⟨rfl, rfl⟩ := okPair h; rfl)
                      | exact nomatch h
            | lparenTok p3 =>
              rw [parseOperand.eq_def] at h ⊢
              simp only [] at h ⊢
              cases hI : parseOr n (Tok.lparenTok p3 :: ts3) with
              | error er => rw [hI] at h; exact nomatch h
              | ok pr =>
                obtain ⟨e2, r2⟩ := pr
                rw [hI] at h
                rw [ihOr _ e2 r2 hI]
                cases r2 with
                | nil => exact nomatch h
                | cons t4 r3 =>
                  cases t4 <;>
                    first
                      | (obtain ⟨rfl, rfl⟩ := okPair h; rfl)
                      | exact nomatch h
    have hCT : ∀ left ops comps ts e rest, parseCmpTail (n + 1) left ops comps ts = .ok (e, rest) →
        parseCmpTail (n + 2) left ops comps ts = .ok (e, rest) := by
      intro left ops comps ts e rest h
      cases ts with
      | nil =>
        obtain ⟨rfl, rfl⟩ := okPair h
        rfl
      | cons t ts2 =>
        cases t with
        | cmpTok o p =>
          rw [parseCmpTail.eq_def] at h ⊢
          simp only [] at h ⊢
          cases ha : parseOperand n ts2 with
          | error er => rw [ha] at h; exact nomatch h
          | ok pr =>
            obtain ⟨c, r2⟩ := pr
            rw [ha] at h
            simp only [] at h
            rw [ihOp ts2 c r2 ha]
            simp only []
            exact ihCT left (ops ++ [o]) (comps ++ [c]) r2 e rest h
        | nameTok s p =>
          obtain ⟨rfl, rfl⟩ := okPair h
          rfl
        | intTok v p =>
          obtain ⟨rfl, rfl⟩ := okPair h
          rfl
        | floatTok v p =>
          obtain ⟨rfl, rfl⟩ := okPair h
          rfl
        | strTok s p =>
          obtain ⟨rfl, rfl⟩ := okPair h
          rfl
        | andTok p =>
          obtain ⟨rfl, rfl⟩ := okPair h
          rfl
        | orTok p =>
          obtain ⟨rfl, rfl⟩ := okPair h
          rfl
        | notTok p =>
          obtain ⟨rfl, rfl⟩ := okPair h
          rfl
        | minusTok p =>
          obtain ⟨rfl, rfl⟩ := okPair h
          rfl
        | lparenTok p =>
          obtain ⟨rfl, rfl⟩ := okPair h
          rfl
        | rparenTok p =>
          obtain ⟨rfl, rfl⟩ := okPair h
          rfl
    have hC : ∀ ts e rest, parseCmpExpr (n + 1) ts = .ok (e, rest) →
        parseCmpExpr (n + 2) ts = .ok (e, rest) := by
      intro ts e rest h
      rw [parseCmpExpr.eq_def] at h ⊢
      simp only [] at h ⊢
      cases ha : parseOperand n ts with
      | error er => rw [ha] at h; exact nomatch h
      | ok pr =>
        obtain ⟨left, r2⟩ := pr
        rw [ha] at h
        simp only [] at h
        rw [ihOp ts left r2 ha]
        simp only []
        exact ihCT left [] [] r2 e rest h
    have hU : ∀ ts e rest, parseUnary (n + 1) ts = .ok (e, rest) →
        parseUnary (n + 2) ts = .ok (e, rest) := by
      intro ts e rest h
      cases ts with
      | nil => exact ihC [] e rest h
      | cons t ts2 =>
        cases t with
        | notTok p =>
          rw [parseUnary.eq_def] at h ⊢
          simp only [] at h ⊢
          cases ha : parseUnary n ts2 with
          | error er => rw [ha] at h; exact nomatch h
          | ok pr =>
            obtain ⟨e2, r2⟩ := pr
            rw [ha] at h
            simp only [] at h
            obtain ⟨rfl, rfl⟩ := okPair h
            rw [ihU ts2 e2 r2 ha]
        | nameTok s p => exact ihC _ e rest h
        | intTok v p => exact ihC _ e rest h
        | floatTok v p => exact ihC _ e rest h
        | strTok s p => exact ihC _ e rest h
        | cmpTok o p => exact ihC _ e rest h
        | andTok p => exact ihC _ e rest h
        | orTok p => exact ihC _ e rest h
        | minusTok p => exact ihC _ e rest h
        | lparenTok p => exact ihC _ e rest h
        | rparenTok p => exact ihC _ e rest h
    have hAndT : ∀ first acc ts e rest, parseAndTail (n + 1) first acc ts = .ok (e, rest) →
        parseAndTail (n + 2) first acc ts = .ok (e, rest) := by
      intro first acc ts e rest h
      cases ts with
      | nil =>
        obtain ⟨rfl, rfl⟩ := okPair h
        rfl
      | cons t ts2 =>
        cases t with
        | andTok p =>
          rw [parseAndTail.eq_def] at h ⊢
          simp only [] at h ⊢
          cases ha : parseUnary n ts2 with
          | error er => rw [ha] at h; exact nomatch h
          | ok pr =>
            obtain ⟨e2, r2⟩ := pr
            rw [ha] at h
            simp only [] at h
            rw [ihU ts2 e2 r2 ha]
            simp only []
            exact ihAndT first (acc ++ [e2]) r2 e rest h
        | nameTok s p =>
          obtain ⟨rfl, rfl⟩ := okPair h
          rfl
        | intTok v p =>
          obtain ⟨rfl, rfl⟩ := okPair h
          rfl
        | floatTok v p =>
          obtain ⟨rfl, rfl⟩ := okPair h
          rfl
        | strTok s p =>
          obtain ⟨rfl, rfl⟩ := okPair h
          rfl
        | cmpTok o p =>
          obtain ⟨rfl, rfl⟩ := okPair h
          rfl
        | orTok p =>
          obtain ⟨rfl, rfl⟩ := okPair h
          rfl
        | notTok p =>
          obtain ⟨rfl, rfl⟩ := okPair h
          rfl
        | minusTok p =>
          obtain ⟨rfl, rfl⟩ := okPair h
          rfl
        | lparenTok p =>
          obtain ⟨rfl, rfl⟩ := okPair h
          rfl
        | rparenTok p =>
          obtain ⟨rfl, rfl⟩ := okPair h
          rfl
    have hAnd : ∀ ts e rest, parseAnd (n + 1) ts = .ok (e, rest) →
        parseAnd (n + 2) ts = .ok (e, rest) := by
      intro ts e rest h
      rw [parseAnd.eq_def] at h ⊢
      simp only [] at h ⊢
      cases ha : parseUnary n ts with
      | error er => rw [ha] at h; exact nomatch h
      | ok pr =>
        obtain ⟨first, r2⟩ := pr
        rw [ha] at h
        simp only [] at h
        rw [ihU ts first r2 ha]
        simp only []
        exact ihAndT first [] r2 e rest h
    have hOrT2 : ∀ first acc ts e rest, parseOrTail (n + 1) first acc ts = .ok (e, rest) →
        parseOrTail (n + 2) first acc ts = .ok (e, rest) := by
      intro first acc ts e rest h
      cases ts with
      | nil =>
        obtain ⟨rfl, rfl⟩ := okPair h
        rfl
      | cons t ts2 =>
        cases t with
        | orTok p =>
          rw [parseOrTail.eq_def] at h ⊢
          simp only [] at h ⊢
          cases ha : parseAnd n ts2 with
          | error er => rw [ha] at h; exact nomatch h
          | ok pr =>
            obtain ⟨e2, r2⟩ := pr
            rw [ha] at h
            simp only [] at h
            rw [ihAnd ts2 e2 r2 ha]
            simp only []
            exact ihOrT first (acc ++ [e2]) r2 e rest h
        | nameTok s p =>
          obtain ⟨rfl, rfl⟩ := okPair h
          rfl
        | intTok v p =>
          obtain ⟨rfl, rfl⟩ := okPair h
          rfl
        | floatTok v p =>
          obtain ⟨rfl, rfl⟩ := okPair h
          rfl
        | strTok s p =>
          obtain ⟨rfl, rfl⟩ := okPair h
          rfl
        | cmpTok o p =>
          obtain ⟨rfl, rfl⟩ := okPair h
          rfl
        | andTok p =>
          obtain ⟨rfl, rfl⟩ := okPair h
          rfl
        | notTok p =>
          obtain ⟨rfl, rfl⟩ := okPair h
          rfl
        | minusTok p =>
          obtain ⟨rfl, rfl⟩ := okPair h
          rfl
        | lparenTok p =>
          obtain ⟨rfl, rfl⟩ := okPair h
          rfl
        | rparenTok p =>
          obtain ⟨rfl, rfl⟩ := okPair h
          rfl
    have hOr : ∀ ts e rest, parseOr (n + 1) ts = .ok (e, rest) →
        parseOr (n + 2) ts = .ok (e, rest) := by
      intro ts e rest h
      rw [parseOr.eq_def] at h ⊢
      simp only [] at h ⊢
      cases ha : parseAnd n ts with
      | error er => rw [ha] at h; exact nomatch h
      | ok pr =>
        obtain ⟨first, r2⟩ := pr
        rw [ha] at h
        simp only [] at h
        rw [ihAnd ts first r2 ha]
        simp only []
        exact ihOrT first [] r2 e rest h
    exact ⟨hOr, hOrT2, hAnd, hAndT, hU, hC, hCT, hOp⟩

/-- Fuel monotonicity for the top-level expression parser. -/
theorem parseOr_mono (f g : Nat) (hle : f ≤ g) (ts : List Tok) (e : PyExpr)
    (rest : List Tok) (h : parseOr f ts = .ok (e, rest)) : parseOr g ts = .ok (e, rest) := by
  induction g, hle using Nat.le_induction with
  | base => exact h
  | succ m hm ihm => exact (parser_mono m).1 ts e rest ihm

/-! ### Redundant parentheses are inert (C8): wrapping theorems -/

/-- A `)`‑headed token list never parses to a value. -/
theorem parseOr_rparen (f : Nat) (p : Pos) (ts : List Tok) (e : PyExpr)
    (rest : List Tok) : parseOr f (.rparenTok p :: ts) ≠ .ok (e, rest) := by
  match f with
  | 0 => exact fun h => nomatch h
  | 1 => exact fun h => nomatch h
  | 2 => exact fun h => nomatch h
  | 3 => exact fun h => nomatch h
  | 4 => exact fun h => nomatch h
  | g + 5 => exact fun h => nomatch h

theorem parseCmpExpr_paren (g : Nat) (ts : List Tok) (e : PyExpr)
    (h : parseOperand (g + 1) ts = .ok (e, [])) :
    parseCmpExpr (g + 2) ts = .ok (e, []) := by
  rw [parseCmpExpr.eq_def]
  simp only []
  rw [h]
  rfl

theorem parseAnd_paren (g : Nat) (ts : List Tok) (e : PyExpr)
    (h : parseUnary (g + 3) ts = .ok (e, [])) :
    parseAnd (g + 4) ts = .ok (e, []) := by
  rw [parseAnd.eq_def]
  simp only []
  rw [h]
  rfl

theorem parseOr_of_and (g : Nat) (ts : List Tok) (e : PyExpr)
    (h : parseAnd (g + 4) ts = .ok (e, [])) :
    parseOr (g + 5) ts = .ok (e, []) := by
  rw [parseOr.eq_def]
  simp only []
  rw [h]
  rfl

/-- Wrapping a complete expression in one extra pair of parentheses:
the operand rule strips it and hands back the inner expression. -/
theorem parseOr_paren (g : Nat) (p : Pos) (inner : List Tok) (e : PyExpr)
    (hne : inner ≠ []) (hhd : ∀ p3 ts3, inner ≠ Tok.rparenTok p3 :: ts3)
    (h : parseOr g inner = .ok (e, [.rparenTok p])) :
    parseOr (g + 5) (.lparenTok p :: inner) = .ok (e, []) := by
  have h2 : parseOperand (g + 1) (.lparenTok p :: inner) = .ok (e, []) := by
    cases inner with
    | nil => exact absurd rfl hne
    | cons t2 ts3 =>
      cases t2 with
      | rparenTok p3 => exact absurd rfl (hhd p3 ts3)
      | nameTok s2 p3 =>
        rw [parseOperand.eq_def]
        simp only []
        rw [h]
      | intTok v2 p3 =>
        rw [parseOperand.eq_def]
        simp only []
        rw [h]
      | floatTok v2 p3 =>
        rw [parseOperand.eq_def]
        simp only []
        rw [h]
      | strTok s2 p3 =>
        rw [parseOperand.eq_def]
        simp only []
        rw [h]
      | cmpTok o2 p3 =>
        rw [parseOperand.eq_def]
        simp only []
        rw [h]
      | andTok p3 =>
        rw [parseOperand.eq_def]
        simp only []
        rw [h]
      | orTok p3 =>
        rw [parseOperand.eq_def]
        simp only []
        rw [h]
      | notTok p3 =>
        rw [parseOperand.eq_def]
        simp only []
        rw [h]
      | minusTok p3 =>
        rw [parseOperand.eq_def]
        simp only []
        rw [h]
      | lparenTok p3 =>
        rw [parseOperand.eq_def]
        simp only []
        rw [h]
  apply parseOr_of_and
  apply parseAnd_paren
  show parseCmpExpr (g + 2) (.lparenTok p :: inner) = .ok (e, [])
  exact parseCmpExpr_paren g _ e h2

/-- Wrapping a complete expression in `n` redundant layers of
parentheses parses to the same expression (with `5` extra fuel per
layer). -/
theorem parseOr_wrap (p : Pos) : ∀ (n f : Nat) (ts : List Tok) (e : PyExpr),
    parseOr f ts = .ok (e, []) → ts ≠ [] →
    (∀ p3 ts3, ts ≠ Tok.rparenTok p3 :: ts3) →
    parseOr (f + 5 * n) (List.replicate n (Tok.lparenTok p) ++ ts ++
      List.replicate n (Tok.rparenTok p)) = .ok (e, [])
  | 0, f, ts, e, h, _, _ => by
    simp only [List.replicate, List.nil_append, List.append_nil]
    exact h
  | n + 1, f, ts, e, h, hne, hhd => by
    have ih := parseOr_wrap p n f ts e h hne hhd
    have hext := (parser_extend p [] (f + 5 * n)).1 _ e [] ih
    have hne2 : (List.replicate n (Tok.lparenTok p) ++ ts ++
        List.replicate n (Tok.rparenTok p)) ++ [Tok.rparenTok p] ≠ [] := by
      simp
    have hhd2 : ∀ p3 ts3, (List.replicate n (Tok.lparenTok p) ++ ts ++
        List.replicate n (Tok.rparenTok p)) ++ [Tok.rparenTok p] ≠
          Tok.rparenTok p3 :: ts3 := by
      cases n with
      | zero =>
        cases ts with
        | nil => exact absurd rfl hne
        | cons t ts2 =>
          intro p3 ts3 hcontra
          simp only [List.replicate, List.nil_append, List.append_nil,
            List.cons_append, List.cons.injEq] at hcontra
          exact hhd p3 ts2 (by rw [hcontra.1])
      | succ m =>
        intro p3 ts3 hcontra
        simp only [List.replicate, List.cons_append, List.cons.injEq] at hcontra
        exact nomatch hcontra.1
    have hp := parseOr_paren (f + 5 * n) p _ e hne2 hhd2 hext
    have e1 : f + 5 * (n + 1) = (f + 5 * n) + 5 := by ring
    rw [e1]
    show parseOr ((f + 5 * n) + 5) (Tok.lparenTok p :: (List.replicate n (Tok.lparenTok p) ++
      ts ++ List.replicate (n + 1) (Tok.rparenTok p))) = .ok (e, [])
    rw [List.replicate_succ']
    rw [show List.replicate n (Tok.lparenTok p) ++ ts ++
        (List.replicate n (Tok.rparenTok p) ++ [Tok.rparenTok p]) =
        (List.replicate n (Tok.lparenTok p) ++ ts ++ List.replicate n (Tok.rparenTok p)) ++
          [Tok.rparenTok p] from by simp]
    exact hp

/-- Wrapping the whole token stream in `n` redundant layers of
parentheses leaves a successful `parseExprToks` outcome unchanged. -/
theorem parseExprToks_wrap (p : Pos) (n : Nat) (ts : List Tok) (e : PyExpr)
    (h : parseExprToks ts = .ok e) :
    parseExprToks (List.replicate n (Tok.lparenTok p) ++ ts ++
      List.replicate n (Tok.rparenTok p)) = .ok e := by
  unfold parseExprToks at h
  cases hI : parseOr (8 * ts.length + 64) ts with
  | error er => rw [hI] at h; exact nomatch h
  | ok pr =>
    obtain ⟨e2, r2⟩ := pr
    rw [hI] at h
    cases r2 with
    | cons t4 r3 => exact nomatch h
    | nil =>
      have he : e2 = e := by
        injection h
      subst he
      have hne : ts ≠ [] := by
        intro hcontra
        rw [hcontra] at hI
        exact parseOr_nil _ e2 [] hI
      have hhd : ∀ p3 ts3, ts ≠ Tok.rparenTok p3 :: ts3 := by
        intro p3 ts3 hcontra
        rw [hcontra] at hI
        exact parseOr_rparen _ p3 ts3 e2 [] hI
      have hw := parseOr_wrap p n (8 * ts.length + 64) ts e2 hI hne hhd
      have hlen : (List.replicate n (Tok.lparenTok p) ++ ts ++
          List.replicate n (Tok.rparenTok p)).length = ts.length + 2 * n := by
        simp [List.length_append, List.length_replicate]
        omega
      have hmono := parseOr_mono (8 * ts.length + 64 + 5 * n)
        (8 * (List.replicate n (Tok.lparenTok p) ++ ts ++
          List.replicate n (Tok.rparenTok p)).length + 64)
        (by rw [hlen]; omega) _ e2 [] hw
      unfold parseExprToks
      rw [hmono]


/-- **C8**: redundant parenthesis nesting never changes the resulting
AST — universally at the token level (wrapping the whole expression in
`n` extra layers of parentheses leaves any successful parse outcome
unchanged), and end-to-end for wrapping a parenthesized subexpression
or the whole expression of concrete queries to depth 3. -/
theorem c8_redundant_parens_inert :
    (∀ (p : Pos) (n : Nat) (ts : List Tok) (e : PyExpr),
        parseExprToks ts = .ok e →
        parseExprToks (List.replicate n (Tok.lparenTok p) ++ ts ++
          List.replicate n (Tok.rparenTok p)) = .ok e) ∧
    (build "(a eq 1 or b eq 2) and c eq 3" testRegistry =
        build "((a eq 1 or b eq 2)) and c eq 3" testRegistry ∧
      build "(a eq 1 or b eq 2) and c eq 3" testRegistry =
        build "(((a eq 1 or b eq 2))) and c eq 3" testRegistry ∧
      build "a eq 1 and b eq 2" testRegistry =
        build "(((a eq 1 and b eq 2)))" testRegistry ∧
      resultAst (build "(a eq 1 or b eq 2) and c eq 3" testRegistry) ≠ none) :=
  ⟨fun p n ts e h => parseExprToks_wrap p n ts e h,
   by decide, by decide, by decide, by decide⟩

theorem c8_witness :
    parseExprToks (List.replicate 2 (Tok.lparenTok ⟨1, 0⟩) ++
      [Tok.nameTok "a" ⟨1, 0⟩, Tok.cmpTok .eq ⟨1, 2⟩, Tok.intTok 1 ⟨1, 5⟩] ++
      List.replicate 2 (Tok.rparenTok ⟨1, 0⟩)) =
      .ok (.compare (.name "a" ⟨1, 0⟩) [.eq]
        (.cons (.numInt 1 ⟨1, 5⟩) .nil) ⟨1, 0⟩) :=
  c8_redundant_parens_inert.1 ⟨1, 0⟩ 2
    [Tok.nameTok "a" ⟨1, 0⟩, Tok.cmpTok .eq ⟨1, 2⟩, Tok.intTok 1 ⟨1, 5⟩]
    (.compare (.name "a" ⟨1, 0⟩) [.eq] (.cons (.numInt 1 ⟨1, 5⟩) .nil) ⟨1, 0⟩)
    (by decide)

end SimpleQuery
